import Mathlib

/-!
# Verification of the webvtt.js parser/serializer (src/parser.mjs)

Shallow embedding of `src/parser.mjs`.  JavaScript strings are modelled as
Lean `String`/`List Char` (lone UTF-16 surrogates, which Lean `Char` cannot
represent, are coarsened to NUL by `Char.ofNat`); JavaScript numbers are
modelled as exact rationals `ℚ` (with `NaN`/`Infinity` represented explicitly
by the `JsNum` type where the code can produce them); the single throwing
operation reachable from `parse` (`String.fromCodePoint`) is modelled in the
`Except String` monad.  Wall-clock time (`Date.now()`) is not modelled: the
`time` field of a parse result is always `0`.
-/

set_option maxRecDepth 10000

-- Batteries marks the `Rat` arithmetic primitives `@[irreducible]`, which
-- blocks `decide`/`rfl` evaluation of the embedding on concrete inputs;
-- restore the definitional behaviour (the kernel re-checks every proof).
set_option allowUnsafeReducibility true
attribute [semireducible] Rat.mul Rat.add Rat.sub Rat.div Rat.neg Rat.inv Rat.blt

namespace WebVtt

/-! ## Basic character/string helpers mirroring the JS built-ins -/

/-- The character class of the `SPACE` regex `/[ \t\f]/`. -/
def isSpaceC (c : Char) : Bool :=
  c = ' ' || c = '\t' || c = '\x0c'

/-- `NOSPACE.test(line[pos])`: when `line[pos]` is `undefined`, JavaScript
coerces it to the string `"undefined"`, which contains a non-space character,
so the test yields `true`. -/
def nospaceTest (c? : Option Char) : Bool :=
  match c? with
  | some c => !isSpaceC c
  | none => true

def isDigitC (c : Char) : Bool :=
  '0' ≤ c && c ≤ '9'

def digitVal (c : Char) : ℕ := c.toNat - 48

/-- Numeric value of a string of decimal digits (base 10). -/
def digitsToNat (ds : List Char) : ℕ :=
  ds.foldl (fun a c => 10 * a + digitVal c) 0

/-- Numeric value of a string of decimal digits read in base 16
(`parseInt(m[2], 16)` where `m[2]` matched `[0-9]+`). -/
def decDigitsToNatBase16 (ds : List Char) : ℕ :=
  ds.foldl (fun a c => 16 * a + digitVal c) 0

/-- Decimal digits of `n`, most significant first; `fuel ≥` the number of
digits (structural recursion so that it evaluates in the kernel). -/
def natReprGo (fuel n : ℕ) : List Char :=
  match fuel with
  | 0 => []
  | fuel + 1 =>
    if n < 10 then [Char.ofNat (48 + n)]
    else natReprGo fuel (n / 10) ++ [Char.ofNat (48 + n % 10)]

/-- Decimal rendering of a natural number (JS `ToString` on a non-negative
integer); `n + 1` units of fuel always suffice. -/
def natRepr (n : ℕ) : String :=
  String.mk (natReprGo (n + 1) n)

/-- Decimal rendering of an integer. -/
def intRepr (n : ℤ) : String :=
  if n < 0 then "-" ++ natRepr n.natAbs else natRepr n.natAbs

/-- `String.prototype.padStart(width, '0')`. -/
def padZero (width : ℕ) (s : String) : String :=
  if s.length < width then String.mk (List.replicate (width - s.length) '0') ++ s
  else s

/-- Does `sub` occur in `s` (JS `s.indexOf(sub) !== -1`)? -/
def hasSubstr (sub : List Char) : List Char → Bool
  | [] => sub.isPrefixOf []
  | c :: cs => sub.isPrefixOf (c :: cs) || hasSubstr sub cs

/-- `s.indexOf('-->') !== -1`. -/
def hasArrow (s : String) : Bool :=
  hasSubstr ['-', '-', '>'] s.data

/-- First index where `sub` occurs, JS `indexOf` (`-1` becomes `none`). -/
def jsIndexOfFrom (sub : List Char) : List Char → ℕ → Option ℕ
  | [], i => if sub.isPrefixOf [] then some i else none
  | c :: cs, i => if sub.isPrefixOf (c :: cs) then some i else jsIndexOfFrom sub cs (i + 1)

def jsIndexOf (sub s : List Char) : Option ℕ :=
  jsIndexOfFrom sub s 0

/-- Split on a single-character predicate, JS `String.prototype.split` with a
single-character-class regex: every matching character is a separator and
empty segments are kept. -/
def splitAtPred (p : Char → Bool) (cs : List Char) : List String :=
  match cs with
  | [] => [""]
  | c :: rest =>
    if p c then "" :: splitAtPred p rest
    else
      match splitAtPred p rest with
      | [] => [String.mk [c]]
      | s :: ss => (String.mk [c] ++ s) :: ss

/-- Split on newlines: the JS regex `/\r\n|\r|\n/` (leftmost alternative
`\r\n` wins). -/
def splitLinesGo (cs : List Char) : List String :=
  match cs with
  | [] => [""]
  | '\r' :: '\n' :: rest => "" :: splitLinesGo rest
  | '\r' :: rest => "" :: splitLinesGo rest
  | '\n' :: rest => "" :: splitLinesGo rest
  | c :: rest =>
    match splitLinesGo rest with
    | [] => [String.mk [c]]
    | s :: ss => (String.mk [c] ++ s) :: ss

def splitLines (s : String) : List String :=
  splitLinesGo s.data

/-- `input.replace(/\0/g, '�')`. -/
def replaceNuls (s : String) : String :=
  String.mk (s.data.map (fun c => if c = '\x00' then '�' else c))

/-! ## A stable comparator sort

`Array.prototype.sort` with a consistent comparator produces a list sorted
with respect to the comparator and is stable (ES2019).  Any stable sort is a
faithful model; we use insertion sort, which is structurally recursive and
therefore evaluates in the kernel. -/

/-- Insert `a` before the first element `b` with `le a b` (so `a` lands
after every earlier-equal element: stability). -/
def stableInsert (le : α → α → Bool) (a : α) : List α → List α
  | [] => [a]
  | b :: bs => if le a b then a :: b :: bs else b :: stableInsert le a bs

/-- Stable sort by the boolean relation `le`. -/
def stableSort (le : α → α → Bool) : List α → List α
  | [] => []
  | a :: as => stableInsert le a (stableSort le as)

/-! ## JavaScript number semantics

JS numbers are modelled as exact rationals; `NaN` and `±Infinity` get explicit
constructors where the code can observe them (`isNaN`, `isFinite`,
comparisons), and overflow to `Infinity` happens at the exact binary64
threshold `2^1024 - 2^970`.  Rounding of finite values to binary64 is not
modelled: finite values stay exact rationals, which coincides with the
double wherever at most 15 significant decimal digits are involved. -/

inductive JsNum
  | nan
  | inf (neg : Bool)
  | num (q : ℚ)
deriving DecidableEq, Repr

/-- `x > (b : ℚ)` for a JS number `x` (`NaN` compares false, as in JS). -/
def JsNum.gtQ (x : JsNum) (b : ℚ) : Bool :=
  match x with
  | .nan => false
  | .inf neg => !neg
  | .num q => q > b

/-- `x < (b : ℚ)` for a JS number `x` (`NaN` compares false). -/
def JsNum.ltQ (x : JsNum) (b : ℚ) : Bool :=
  match x with
  | .nan => false
  | .inf neg => neg
  | .num q => q < b

/-- The ECMAScript `StrWhiteSpaceChar` set trimmed by `parseInt`, `parseFloat`
and `Number(...)`: WhiteSpace (TAB, VT, FF, SP, NBSP, ZWNBSP U+FEFF and the
Unicode Zs spaces) plus the LineTerminators (LF, CR, LS U+2028, PS U+2029). -/
def jsWhitespace (c : Char) : Bool :=
  c = ' ' || c = '\t' || c = '\n' || c = '\r' || c = '\x0c' || c = '\x0b' ||
  c = '\xa0' || c.toNat = 0x1680 || (0x2000 ≤ c.toNat && c.toNat ≤ 0x200a) ||
  c.toNat = 0x2028 || c.toNat = 0x2029 || c.toNat = 0x202f || c.toNat = 0x205f ||
  c.toNat = 0x3000 || c.toNat = 0xfeff

/-- `parseInt(s, 10)`: skip leading whitespace, optional sign, then a leading
run of decimal digits; `NaN` (here `none`) when the run is empty. -/
def jsParseInt (s : String) : Option ℤ :=
  let cs := s.data.dropWhile jsWhitespace
  let (neg, cs) :=
    match cs with
    | '-' :: rest => (true, rest)
    | '+' :: rest => (false, rest)
    | _ => (false, cs)
  let ds := cs.takeWhile isDigitC
  if ds.isEmpty then none
  else some (if neg then -(digitsToNat ds : ℤ) else (digitsToNat ds : ℤ))

/-- `(parseInt s).gtQ`-style comparison: `parseInt(s,10) > b` with `NaN`
comparing false. -/
def parseIntGt (s : String) (b : ℤ) : Bool :=
  match jsParseInt s with
  | none => false
  | some n => n > b

def parseIntLt (s : String) (b : ℤ) : Bool :=
  match jsParseInt s with
  | none => false
  | some n => n < b

/-- Value of an unsigned decimal literal `ds [. fs]` as a rational. -/
def decLiteralVal (ds fs : List Char) : ℚ :=
  (digitsToNat ds : ℚ) + (digitsToNat fs : ℚ) / ((10 : ℚ) ^ fs.length)

/-- Signed digit run after the `e`/`E` of an exponent. -/
def parseExpSign (cs : List Char) : Option (ℤ × List Char) :=
  let (neg, cs') :=
    match cs with
    | '-' :: rest => (true, rest)
    | '+' :: rest => (false, rest)
    | _ => (false, cs)
  let ds := cs'.takeWhile isDigitC
  if ds.isEmpty then none
  else some (if neg then -(digitsToNat ds : ℤ) else (digitsToNat ds : ℤ), cs'.drop ds.length)

/-- Parse the exponent part `e|E [+|-] digits` at the front of `cs`; returns
the exponent and the remaining characters, or `none` when there is no
well-formed exponent prefix (in which case `parseFloat` stops before it). -/
def parseExpPart (cs : List Char) : Option (ℤ × List Char) :=
  match cs with
  | 'e' :: rest => parseExpSign rest
  | 'E' :: rest => parseExpSign rest
  | _ => none

/-- Core of `parseFloat`: parse the longest numeric-literal prefix of `cs`
(sign already stripped); `none` when no valid prefix exists. -/
def parseFloatCore (cs : List Char) : Option ℚ :=
  if ['I', 'n', 'f', 'i', 'n', 'i', 't', 'y'].isPrefixOf cs then none -- handled by caller
  else
    let ds := cs.takeWhile isDigitC
    let cs₁ := cs.drop ds.length
    let (fs, cs₂) :=
      match cs₁ with
      | '.' :: rest => (rest.takeWhile isDigitC, (rest.takeWhile isDigitC).length + 1)
      | _ => ([], 0)
    let cs₂ := cs₁.drop cs₂
    if ds.isEmpty && fs.isEmpty then none
    else
      let base := decLiteralVal ds fs
      match parseExpPart cs₂ with
      | some (e, _) => some (base * (10 : ℚ) ^ e)
      | none => some base

/-- `parseFloat(s)`: leading whitespace, optional sign, `Infinity` or the
longest decimal-literal prefix; `NaN` when none. -/
def jsParseFloat (s : String) : JsNum :=
  let cs := s.data.dropWhile jsWhitespace
  let (neg, cs) :=
    match cs with
    | '-' :: rest => (true, rest)
    | '+' :: rest => (false, rest)
    | _ => (false, cs)
  if ['I', 'n', 'f', 'i', 'n', 'i', 't', 'y'].isPrefixOf cs then .inf neg
  else
    match parseFloatCore cs with
    | none => .nan
    | some q => .num (if neg then -q else q)

def isHexDigit (c : Char) : Bool :=
  isDigitC c || ('a' ≤ c && c ≤ 'f') || ('A' ≤ c && c ≤ 'F')

def hexDigitVal (c : Char) : ℕ :=
  if isDigitC c then c.toNat - 48
  else if 'a' ≤ c && c ≤ 'f' then c.toNat - 87
  else c.toNat - 55

/-- Double overflow: `Number(...)` / `parseFloat` round to `Infinity` exactly
when the magnitude is at least `2^1024 - 2^970`, the midpoint above the
largest finite binary64 value (ties-to-even sends the midpoint up). -/
def overflowThreshold : ℚ :=
  -- 2^1024 - 2^970, written out as one numeral so that kernel evaluation
  -- never unfolds a unary power
  179769313486231580793728971405303415079934132710037826936173778980444968292764750946649017977587207096330286416692887910946555547851940402630657488671505820681908902000708383676273854845817711531764475730270069855571366959622842914819860834936475292719074168444365510704342711559699508093042880177904174497792

def overflowCheck (neg : Bool) (q : ℚ) : JsNum :=
  if q ≥ overflowThreshold then .inf neg
  else .num (if neg then -q else q)

/-- Signed full-string decimal literal (with optional exponent), the
fallback alternative of `Number(s)`. -/
def jsNumberDec (cs0 : List Char) : JsNum :=
  let (neg, cs) :=
    match cs0 with
    | '-' :: rest => (true, rest)
    | '+' :: rest => (false, rest)
    | _ => (false, cs0)
  if cs = ['I', 'n', 'f', 'i', 'n', 'i', 't', 'y'] then .inf neg
  else
    let ds := cs.takeWhile isDigitC
    let cs₁ := cs.drop ds.length
    let (fs, used) :=
      match cs₁ with
      | '.' :: rest => (rest.takeWhile isDigitC, (rest.takeWhile isDigitC).length + 1)
      | _ => ([], 0)
    let cs₂ := cs₁.drop used
    if ds.isEmpty && fs.isEmpty then .nan
    else
      match cs₂ with
      | [] => overflowCheck neg (decLiteralVal ds fs)
      | _ =>
        match parseExpPart cs₂ with
        | some (e, []) => overflowCheck neg (decLiteralVal ds fs * (10 : ℚ) ^ e)
        | _ => .nan

/-- `Number(s)` (string-to-number coercion, used by `isNaN`/`isFinite`):
whitespace-trimmed full-string numeric literal, `""` is `0`, hex/octal/binary
prefixes allowed without sign, otherwise `NaN`. -/
def jsNumber (s : String) : JsNum :=
  let cs := (s.data.dropWhile jsWhitespace).reverse.dropWhile jsWhitespace |>.reverse
  match cs with
  | [] => .num 0
  | '0' :: x :: rest =>
    if (x = 'x' || x = 'X') && !rest.isEmpty && rest.all isHexDigit then
      .num (rest.foldl (fun a c => 16 * a + hexDigitVal c) 0 : ℕ)
    else if (x = 'o' || x = 'O') && !rest.isEmpty && rest.all (fun c => '0' ≤ c && c ≤ '7') then
      .num (rest.foldl (fun a c => 8 * a + digitVal c) 0 : ℕ)
    else if (x = 'b' || x = 'B') && !rest.isEmpty && rest.all (fun c => c = '0' || c = '1') then
      .num (rest.foldl (fun a c => 2 * a + digitVal c) 0 : ℕ)
    else jsNumberDec cs
  | _ => jsNumberDec cs

/-- `isNaN(s)` for a string argument. -/
def jsIsNaN (s : String) : Bool :=
  jsNumber s = .nan

/-- `!isFinite(s)` for a string argument. -/
def jsNotFinite (s : String) : Bool :=
  match jsNumber s with
  | .nan => true
  | .inf _ => true
  | .num _ => false

/-! ## Canonical rendering of a JS number (`Number.prototype.toString()`)

Under the exact-rational model: the plain positional decimal form (integer
part without leading zeros, fractional digits without trailing zeros) while
ECMA-262's digit position `n` satisfies `-5 ≤ n ≤ 21` (that is, for `0` and
for `10^-6 ≤ |x| < 10^21`), and the exponential form `d[.ddd]e±k` outside
that range, exactly as ECMA-262 `Number::toString` prescribes.  The digits
are those of the exact rational; binary64 rounding of the parsed literal is
not modelled, which agrees with JS whenever the value has at most 15
significant decimal digits (the double round-trip range). -/

def fracDigitsGo (fuel : ℕ) (frac : ℚ) : String :=
  match fuel with
  | 0 => ""
  | fuel + 1 =>
    if frac = 0 then ""
    else
      let d := (frac * 10).floor.toNat
      String.mk [Char.ofNat (48 + d)] ++ fracDigitsGo fuel (frac * 10 - (d : ℚ))

/-- Plain positional decimal rendering of a non-negative rational. -/
def decToStringNonneg (q : ℚ) : String :=
  let n := q.floor.toNat
  let frac := q - (n : ℚ)
  if frac = 0 then natRepr n
  else natRepr n ++ "." ++ fracDigitsGo q.den frac

/-- The significant digits and the ECMA-262 decimal-point position `n` of a
positive rational: from the plain digit string `ipart[.fpart]`, drop leading
and trailing zeros; `n` positions the decimal point after the `n`-th
significant digit (so `|q| = 0.s · 10^n`). -/
def decDigitsExp (q : ℚ) : List Char × ℤ :=
  let plain := (decToStringNonneg q).data
  let ipart := plain.takeWhile (· ≠ '.')
  let fpart := (plain.dropWhile (· ≠ '.')).drop 1
  let allDigits := ipart ++ fpart
  let lead := (allDigits.takeWhile (· = '0')).length
  let s := ((allDigits.drop lead).reverse.dropWhile (· = '0')).reverse
  (s, (ipart.length : ℤ) - (lead : ℤ))

/-- ECMA-262 `Number::toString` exponential form `d[.ddd]e±k` with
`k = n - 1`. -/
def expForm (s : List Char) (n : ℤ) : String :=
  (match s with
   | [] => ""
   | d :: rest =>
     String.mk [d] ++ (if rest.isEmpty then "" else "." ++ String.mk rest)) ++
  (if n - 1 < 0 then "e-" ++ natRepr (n - 1).natAbs else "e+" ++ natRepr (n - 1).natAbs)

/-- `Number::toString` of a non-negative rational: plain positional form for
`-5 ≤ n ≤ 21`, exponential form for `n > 21` (`q ≥ 10^21`) and `n ≤ -6`
(`q < 10^-6`). -/
def decToStringNonnegJs (q : ℚ) : String :=
  if q = 0 then "0"
  else
    let sn := decDigitsExp q
    if sn.2 > 21 || sn.2 ≤ -6 then expForm sn.1 sn.2 else decToStringNonneg q

def decToString (q : ℚ) : String :=
  if q < 0 then "-" ++ decToStringNonnegJs (-q) else decToStringNonnegJs q

/-- The spec sentence for C9 calls the flag's trigger "not the canonical
decimal rendering of the parsed number"; read as the plain positional
decimal form (no exponential notation), it is this rendering, compared with
`decToString` above. -/
def decToStringPlain (q : ℚ) : String :=
  if q < 0 then "-" ++ decToStringNonneg (-q) else decToStringNonneg q

/-- The number of significant decimal digits of a rational (the digits of
its shortest decimal rendering).  A value with at most 15 of them
round-trips exactly through binary64, so on such values the exact-rational
`decToString` coincides with JS. -/
def sigDigits (q : ℚ) : ℕ :=
  (decDigitsExp (if q < 0 then -q else q)).1.length

/-- Rendering used where JS string-concatenates a number (`'' + x`). -/
def jsNumToString (q : ℚ) : String := decToString q

/-- `String.fromCodePoint(n)`: throws `RangeError` for code points above
`0x10FFFF`; lone surrogates (valid in JS strings, unrepresentable in Lean)
are coarsened to NUL by `Char.ofNat`. -/
def fromCodePoint (n : ℕ) : Except String String :=
  if n > 0x10FFFF then .error "RangeError: Invalid code point"
  else .ok (String.mk [Char.ofNat n])

/-- `Math.round` (half away from zero is half-up in JS: `round(x) = ⌊x+0.5⌋`). -/
def jsRound (q : ℚ) : ℤ := (q + 1 / 2).floor

/-- `x % 1` in JS: `x - trunc(x)` (sign follows the dividend). -/
def jsMod1 (q : ℚ) : ℚ :=
  if q < 0 then q + ((-q).floor : ℚ) else q - (q.floor : ℚ)

/-! ## Data model -/

/-- Markup node of a cue-text tree.  `value` is the annotation of `v` /
language of `lang` (absent on the other element names).  The transient
`parent` back-references of the JS construction are not part of this
inductive type; `removeCycles` strips them before the tree is returned, so
the persisted tree is exactly this acyclic structure. -/
inductive Node
  | text (value : String)
  | object (name : String) (classes : List String) (value : Option String)
      (children : List Node)
  | timestamp (value : ℚ)

inductive Mode
  | metadata
  | chapters
deriving DecidableEq, Repr

/-- A cue, with the `defaultCueSettings` defaults built in.  `linePosition` /
`textPosition` use `none` for the JS string value `'auto'`.  `id` is an
`Option` so that the serializer's `cue.id != null` check is expressible;
`parse` always produces `some`.  The JS `nonSerializable` field is absent
(`undefined`) until assigned `true`; absence is modelled as `false`. -/
structure Cue where
  direction : String := "horizontal"
  snapToLines : Bool := true
  linePosition : Option ℚ := none
  lineAlign : String := "start"
  textPosition : Option ℚ := none
  positionAlign : String := "auto"
  size : ℚ := 100
  alignment : String := "center"
  id : Option String := some ""
  startTime : ℚ := 0
  endTime : ℚ := 0
  pauseOnExit : Bool := false
  text : String := ""
  tree : List Node := []
  nonSerializable : Bool := false

instance : Inhabited Cue := ⟨{}⟩

/-- A diagnostic: `{message, line, col}` (both 1-based; `col` optional). -/
structure VttError where
  message : String
  line : ℕ
  col : Option ℕ := none
deriving DecidableEq, Repr

/-- A sub-parser diagnostic before the line number is attached:
`(message, col)`. -/
abbrev PErr := String × ℕ

/-! ## WebVttCueTimingsAndSettingsParser -/

/-- `#skip(pattern)`: advance the cursor over characters matching `p` (the
`while` loop consumes exactly the matching run after the cursor). -/
def tpSkip (p : Char → Bool) (line : List Char) (pos : ℕ) : ℕ :=
  pos + ((line.drop pos).takeWhile p).length

/-- `#collect(pattern)`: collect characters matching `p`, returning the
collected string and the new cursor. -/
def tpCollect (p : Char → Bool) (line : List Char) (pos : ℕ) : List Char × ℕ :=
  let run := (line.drop pos).takeWhile p
  (run, pos + run.length)

/-- `#timestamp()` steps 13-17: `.mmm` and the range checks, after all three
`hh`/`mm`/`ss` components are fixed. -/
def timestampFinish (line : List Char) (pos : ℕ) (val1 val2 val3 : List Char) :
    Option ℚ × ℕ × List PErr :=
  -- 13
  if line.get? pos ≠ some '.' then
    (none, pos, [("No decimal separator (\".\") found.", pos + 1)])
  else
    let pos := pos + 1
    -- 14-16
    let (val4, pos) := tpCollect isDigitC line pos
    if val4.length ≠ 3 then
      (none, pos, [("Milliseconds must be given in three digits.", pos + 1)])
    else
      -- 17
      if digitsToNat val2 > 59 then
        (none, pos, [("You cannot have more than 59 minutes.", pos + 1)])
      else if digitsToNat val3 > 59 then
        (none, pos, [("You cannot have more than 59 seconds.", pos + 1)])
      else
        (some ((digitsToNat val1 : ℚ) * 60 * 60 + (digitsToNat val2 : ℚ) * 60 +
          (digitsToNat val3 : ℚ) + (digitsToNat val4 : ℚ) / 1000), pos, [])

/-- `#timestamp()` step 12: the hours-vs-minutes branch after `val1`/`val2`
have been collected. -/
def timestampTail (line : List Char) (pos : ℕ) (val1 val2 : List Char) (isHours : Bool) :
    Option ℚ × ℕ × List PErr :=
  if isHours || line.get? pos = some ':' then
    if line.get? pos ≠ some ':' then
      (none, pos, [("No seconds found or minutes is greater than 59.", pos + 1)])
    else
      let pos := pos + 1
      let (val3, pos) := tpCollect isDigitC line pos
      if val3.length ≠ 2 then (none, pos, [("Must be exactly two digits.", pos + 1)])
      else timestampFinish line pos val1 val2 val3
  else
    if val1.length ≠ 2 then (none, pos, [("Must be exactly two digits.", pos + 1)])
    else timestampFinish line pos ['0'] val1 val2

/-- `#timestamp()` (collect a WebVTT timestamp).  Returns the value (`none`
on failure), the final cursor position, and the diagnostics raised.  The
`parseInt` calls all receive all-digit strings, so they are `digitsToNat`. -/
def timestampP (line : List Char) (pos : ℕ) : Option ℚ × ℕ × List PErr :=
  -- 3
  match line.get? pos with
  | none => (none, pos, [("No timestamp found.", pos + 1)])
  | some c =>
    -- 4
    if !isDigitC c then
      (none, pos, [("Timestamp must start with a character in the range 0-9.", pos + 1)])
    else
      -- 5-7
      let (val1, pos) := tpCollect isDigitC line pos
      let isHours := val1.length > 2 || digitsToNat val1 > 59
      -- 8
      if line.get? pos ≠ some ':' then (none, pos, [("No time unit separator found.", pos + 1)])
      else
        let pos := pos + 1
        -- 9-11
        let (val2, pos) := tpCollect isDigitC line pos
        if val2.length ≠ 2 then (none, pos, [("Must be exactly two digits.", pos + 1)])
        else
          -- 12
          timestampTail line pos val1 val2 isHours

/-- Tail of the `line` settings regex: the optional `%` then end of string. -/
def lineRegexEnd (cs : List Char) : Bool :=
  cs = [] || cs = ['%']

/-- The `line` settings regex `/^[-\d](\d*)(\.\d+)?%?$/`. -/
def lineRegexTest (cs : List Char) : Bool :=
  match cs with
  | [] => false
  | c :: rest =>
    if c = '-' || isDigitC c then
      let r1 := rest.dropWhile isDigitC
      match r1 with
      | '.' :: r =>
        let ds := r.takeWhile isDigitC
        if ds.isEmpty then false
        else lineRegexEnd (r.drop ds.length)
      | _ => lineRegexEnd r1
    else false

/-- The rational carried by a parsed JS number; only applied where the code
has already ruled out `NaN`/`Infinity` except for the documented
whitespace-only corner (where JS stores `NaN`; we store `0`). -/
def JsNum.toQ (x : JsNum) : ℚ :=
  match x with
  | .num q => q
  | _ => 0

/-- The final assignments of the `line` branch: `snapToLines`,
`linePosition`, and the `nonSerializable` flag when the numeric portion
differs from the JS `toString` rendering of the parsed number. -/
def lineSettingAssign (numVal : String) (isPercent : Bool) (cue : Cue) : Cue × List PErr :=
  let q := (jsParseFloat numVal).toQ
  let cue := { cue with snapToLines := !isPercent, linePosition := some q }
  if decToString q ≠ numVal then ({ cue with nonSerializable := true }, [])
  else (cue, [])

/-- The guard chain of the `line` settings branch, after the optional
`,lineAlign` suffix has been split off. -/
def lineSettingCore (value : String) (lineAlign? : Option String) (col : ℕ) (cue : Cue) :
    Cue × List PErr :=
  if !lineRegexTest value.data then
    (cue, [("Line position takes a number or percentage.", col)])
  else if (value.data.drop 1).contains '-' then
    (cue, [("Line position can only have '-' at the start.", col)])
  else if value.data.contains '%' && jsIndexOf ['%'] value.data ≠ some (value.length - 1) then
    (cue, [("Line position can only have '%' at the end.", col)])
  else if value.data.head? = some '-' && value.data.getLast? = some '%' then
    (cue, [("Line position cannot be a negative percentage.", col)])
  else
    let isPercent := value.data.getLast? = some '%'
    let numVal := if isPercent then String.mk value.data.dropLast else value
    if isPercent && parseIntGt value 100 then
      (cue, [("Line position cannot be >100%.", col)])
    else if numVal = "" || jsIsNaN numVal || jsNotFinite numVal then
      (cue, [("Line position needs to be a number", col)])
    else
      match lineAlign? with
      | some la =>
        if la ∉ ["start", "center", "end"] then
          (cue, [("Line alignment needs to be one of start, center or end", col)])
        else lineSettingAssign numVal isPercent { cue with lineAlign := la }
      | none => lineSettingAssign numVal isPercent cue

/-- The `line` settings branch. -/
def lineSetting (value0 : String) (col : ℕ) (cue : Cue) : Cue × List PErr :=
  let parts :=
    if value0.data.contains ',' then splitAtPred (· = ',') value0.data else [value0]
  let value := parts.headD value0
  let lineAlign? : Option String := if value0.data.contains ',' then parts[1]? else none
  lineSettingCore value lineAlign? col cue

/-- The `position` settings branch.  The JS `var positionAlign` is
function-scoped, not block-scoped: it is (re)assigned only when this token's
value contains a comma and otherwise keeps whatever an earlier token of the
same settings line stored in it, so it is threaded through the loop as
`pa` and returned (possibly updated) alongside the cue. -/
def positionSetting (value0 : String) (pa : Option String) (col : ℕ) (cue : Cue) :
    Cue × List PErr × Option String :=
  let parts :=
    if value0.data.contains ',' then splitAtPred (· = ',') value0.data else [value0]
  let value := parts.headD value0
  let pa : Option String := if value0.data.contains ',' then parts[1]? else pa
  if value.data.getLast? ≠ some '%' then
    (cue, [("Text position must be a percentage.", col)], pa)
  else if parseIntGt value 100 || parseIntLt value 0 then
    (cue, [("Text position needs to be between 0 and 100%.", col)], pa)
  else
    let numVal := String.mk value.data.dropLast
    if numVal = "" || jsIsNaN numVal || jsNotFinite numVal then
      (cue, [("Line position needs to be a number", col)], pa)
    else
      match pa with
      | some p =>
        if p ∉ ["line-left", "center", "line-right"] then
          (cue, [("Position alignment needs to be one of line-left, center or line-right", col)],
            pa)
        else
          ({ cue with positionAlign := p, textPosition := some (jsParseFloat numVal).toQ }, [],
            pa)
      | none => ({ cue with textPosition := some (jsParseFloat numVal).toQ }, [], pa)

/-- The `size` settings branch. -/
def sizeSetting (value : String) (col : ℕ) (cue : Cue) : Cue × List PErr :=
  if value.data.getLast? ≠ some '%' then
    (cue, [("Size must be a percentage.", col)])
  else if parseIntGt value 100 then
    (cue, [("Size cannot be >100%.", col)])
  else
    -- `size == null` is vacuous on a string slice
    let size := String.mk value.data.dropLast
    if size = "" || jsIsNaN size then
      (cue, [("Size needs to be a number", col)])
    else
      match jsParseFloat size with
      | .num q =>
        if q < 0 || q > 100 then
          (cue, [("Size needs to be between 0 and 100%.", col)])
        else ({ cue with size := q }, [])
      | .inf _ =>
        -- `Infinity < 0 || Infinity > 100` (or `-Infinity < 0`) always errors
        (cue, [("Size needs to be between 0 and 100%.", col)])
      | .nan =>
        -- only reachable for whitespace-only `size` (JS stores NaN; see JsNum.toQ)
        ({ cue with size := JsNum.nan.toQ }, [])

/-- One `key:value` settings token: the `if`/`else if` chain over the
setting name.  `pa` is the function-scoped `var positionAlign`, read and
possibly reassigned only by the `position` branch. -/
def applySetting (setting value : String) (pa : Option String) (col : ℕ) (cue : Cue) :
    Cue × List PErr × Option String :=
  if setting = "vertical" then -- writing direction
    if value ≠ "rl" && value ≠ "lr" then
      (cue, [("Writing direction can only be set to 'rl' or 'rl'.", col)], pa)
    else ({ cue with direction := value }, [], pa)
  else if setting = "line" then -- line position and optionally line alignment
    let r := lineSetting value col cue
    (r.1, r.2, pa)
  else if setting = "position" then -- text position and optional positionAlign
    positionSetting value pa col cue
  else if setting = "size" then -- size
    let r := sizeSetting value col cue
    (r.1, r.2, pa)
  else if setting = "align" then -- alignment
    if value ∉ ["start", "center", "end", "left", "right"] then
      (cue, [("Alignment can only be set to one of start, center, end, left, right.", col)], pa)
    else ({ cue with alignment := value }, [], pa)
  else
    (cue, [("Invalid setting.", col)], pa)

/-- The `for` loop of `#parseSettings`: `settings` tokens, the `seen` list,
duplicate detection, the empty-value abort, and the per-token dispatch;
`pa` carries the function-scoped `var positionAlign` across tokens. -/
def settingsLoop (tokens : List String) (seen : List String) (pa : Option String)
    (cue : Cue) (col : ℕ) : Cue × List PErr :=
  match tokens with
  | [] => (cue, [])
  | tok :: rest =>
    if tok = "" then settingsLoop rest seen pa cue col
    else
      let idx := jsIndexOf [':'] tok.data
      -- `slice(0, -1)` when there is no colon
      let setting :=
        match idx with
        | some i => String.mk (tok.data.take i)
        | none => String.mk tok.data.dropLast
      let value :=
        match idx with
        | some i => String.mk (tok.data.drop (i + 1))
        | none => tok
      let dupErr : List PErr := if setting ∈ seen then [("Duplicate setting.", col)] else []
      let seen := seen ++ [setting]
      if value = "" then
        -- `return`: abort the remaining settings on this line
        (cue, dupErr ++ [("No value for setting defined.", col)])
      else
        let (cue, errs, pa) := applySetting setting value pa col cue
        let (cue', errsRest) := settingsLoop rest seen pa cue col
        (cue', dupErr ++ errs ++ errsRest)

/-- `#parseSettings(input, cue)`.  All its diagnostics carry the column
`#pos + 1` frozen at the call site, passed here as `col`; the hoisted
`var positionAlign` starts out `undefined`. -/
def parseSettingsF (input : String) (cue : Cue) (col : ℕ) : Cue × List PErr :=
  settingsLoop (splitAtPred isSpaceC input.data) [] none cue col

/-- `WebVttCueTimingsAndSettingsParser.parse(cue, previousCueStart)`:
returns (truthy result, mutated cue, diagnostics).  On a failed timestamp
the JS code stores `undefined` in the corresponding cue field before
returning; the caller discards the cue, so the field is left unchanged
here. -/
def tsaParse (line : List Char) (cue : Cue) (previousCueStart : ℚ) :
    Bool × Cue × List PErr :=
  let pos := tpSkip isSpaceC line 0
  match timestampP line pos with
  | (none, _, errsS) => (false, cue, errsS)
  | (some startT, pos, errsS) =>
    let cue := { cue with startTime := startT }
    let errsMono : List PErr :=
      if startT < previousCueStart then
        [("Start timestamp is not greater than or equal to start timestamp of previous cue.",
          pos + 1)]
      else []
    let errsWs1 : List PErr :=
      if nospaceTest (line.get? pos) then
        [("Timestamp not separated from '-->' by whitespace.", pos + 1)]
      else []
    let pos := tpSkip isSpaceC line pos
    let acc := errsS ++ errsMono ++ errsWs1
    -- 6-8
    if line.get? pos ≠ some '-' then
      (false, cue, acc ++ [("No valid timestamp separator found.", pos + 1)])
    else
      let pos := pos + 1
      if line.get? pos ≠ some '-' then
        (false, cue, acc ++ [("No valid timestamp separator found.", pos + 1)])
      else
        let pos := pos + 1
        if line.get? pos ≠ some '>' then
          (false, cue, acc ++ [("No valid timestamp separator found.", pos + 1)])
        else
          let pos := pos + 1
          let errsWs2 : List PErr :=
            if nospaceTest (line.get? pos) then
              [("'-->' not separated from timestamp by whitespace.", pos + 1)]
            else []
          let pos := tpSkip isSpaceC line pos
          let acc := acc ++ errsWs2
          match timestampP line pos with
          | (none, _, errsE) => (false, cue, acc ++ errsE)
          | (some endT, pos, errsE) =>
            let cue := { cue with endTime := endT }
            let errsOrd : List PErr :=
              if endT ≤ startT then
                [("End timestamp is not greater than start timestamp.", pos + 1)]
              else []
            let pos := tpSkip isSpaceC line pos
            let (cue, errsSet) := parseSettingsF (String.mk (line.drop pos)) cue (pos + 1)
            (true, cue, acc ++ errsE ++ errsOrd ++ errsSet)

/-- `parseTimestamp()` (standalone): one timestamp, then no trailing
characters allowed.  Returns the value (`none` on any diagnostic path that
`return`s) and the diagnostics. -/
def parseTimestampStandalone (line : List Char) : Option ℚ × List PErr :=
  match timestampP line 0 with
  | (ts, pos, errs) =>
    if line.get? pos ≠ none then
      (none, errs ++ [("Timestamp must not have trailing characters.", pos + 1)])
    else (ts, errs)

/-! ## WebVttCueTextParser -/

/-- The default entity table of the `WebVttParser` constructor, in source
order.  The embedding fixes the table to this default (the only table the
exported `parse` uses). -/
def defaultEntities : List (String × String) :=
  [("&amp;", "&"), ("&lt;", "<"), ("&gt;", ">"),
   ("&lrm;", "‎"), ("&rlm;", "‏"), ("&nbsp;", " "),
   ("&amp", "&"), ("&lt", "<"), ("&gt", ">"),
   ("&lrm", "‎"), ("&rlm", "‏"), ("&nbsp", " ")]

/-- `makeEntityRegex`: keys sorted by descending length (stable); regex
alternation takes the first alternative that matches. -/
def entityList : List (String × String) :=
  stableSort (fun a b => a.1.length ≥ b.1.length) defaultEntities

/-- `line.slice(pos).match(entityRegex)`: the first (longest) entity key
that is a prefix of the rest of the line, paired with its replacement. -/
def entityMatch (rest : List Char) : Option (String × String) :=
  entityList.find? (fun kv => kv.1.data.isPrefixOf rest)

/-- The escape-buffer character class `/[a-z#0-9]/i`. -/
def isEscBufC (c : Char) : Bool :=
  ('a' ≤ c && c ≤ 'z') || ('A' ≤ c && c ≤ 'Z') || c = '#' || isDigitC c

/-- The regex `/^&#(x)?([0-9]+)$/` applied to the escape buffer at a `;`:
optional literal lowercase `x`, then one or more decimal digits. -/
def matchNumRef (b : List Char) : Option (Bool × List Char) :=
  match b with
  | '&' :: '#' :: 'x' :: ds => if !ds.isEmpty && ds.all isDigitC then some (true, ds) else none
  | '&' :: '#' :: ds => if !ds.isEmpty && ds.all isDigitC then some (false, ds) else none
  | _ => none

/-- The regex `/^&#([0-9]+)$/` applied to the escape buffer at `<`/end of
input. -/
def matchNumRefDec (b : List Char) : Option (List Char) :=
  match b with
  | '&' :: '#' :: ds => if !ds.isEmpty && ds.all isDigitC then some ds else none
  | _ => none

/-- `buffer.split(/[ \t\f\r\n]+/).filter(Boolean).join(' ')`. -/
def annNormalize (s : String) : String :=
  String.intercalate " "
    ((splitAtPred (fun c => c = ' ' || c = '\t' || c = '\x0c' || c = '\r' || c = '\n') s.data).filter
      (· ≠ ""))

inductive Token
  | text (value : String)
  | startTag (name : String) (classes : List String) (ann : String)
  | endTag (name : String)
  | tsTag (raw : String)

inductive TokState
  | data
  | esc
  | tag
  | stag
  | stagClass
  | stagAnn
  | etag
  | tstag

/-- `#err` of the cue text parser: suppressed entirely in `metadata` mode. -/
def cerr (mode : Mode) (msg : String) (col : ℕ) : List PErr :=
  if mode = .metadata then [] else [(msg, col)]

/-- The `while` loop of `WebVttCueTextParser.#nextToken`: the character
automaton.  `String.fromCodePoint` can throw, hence the `Except`.  The JS
loop guard `line[pos-1] != null || pos === 0` is `pos ≤ line.length`; every
state returns on an out-of-range read, so the fall-through (where JS would
return `undefined`) is unreachable and modelled as an error. -/
def nextTokenLoop (mode : Mode) (line : List Char) (fuel : ℕ) (state : TokState)
    (result buffer : String) (classes : List String) (pos : ℕ) (errs : List PErr) :
    Except String (Token × ℕ × List PErr) :=
  match fuel with
  | 0 => .error "fuel exhausted"
  | fuel + 1 =>
  if pos ≤ line.length then
    let c? := line.get? pos
    match state with
    | .data =>
      match c? with
      | some '&' =>
        match entityMatch (line.drop pos) with
        | some kv =>
          -- `result += entities[match[0]]; pos += match[0].length - 1` then `pos++`
          nextTokenLoop mode line fuel .data (result ++ kv.2) buffer classes (pos + kv.1.length) errs
        | none =>
          nextTokenLoop mode line fuel .esc result "&" classes (pos + 1) errs
      | some '<' =>
        if result = "" then
          nextTokenLoop mode line fuel .tag result buffer classes (pos + 1) errs
        else .ok (.text result, pos, errs)
      | none => .ok (.text result, pos, errs)
      | some c =>
        nextTokenLoop mode line fuel .data (result.push c) buffer classes (pos + 1) errs
    | .esc =>
      match c? with
      | some '<' =>
        let errs := errs ++ cerr mode "Incorrect escape." (pos + 1)
        match matchNumRefDec buffer.data with
        | some ds => do
          let s ← fromCodePoint (digitsToNat ds)
          .ok (.text (result ++ s), pos, errs)
        | none => .ok (.text (result ++ buffer), pos, errs)
      | none =>
        let errs := errs ++ cerr mode "Incorrect escape." (pos + 1)
        match matchNumRefDec buffer.data with
        | some ds => do
          let s ← fromCodePoint (digitsToNat ds)
          .ok (.text (result ++ s), pos, errs)
        | none => .ok (.text (result ++ buffer), pos, errs)
      | some '&' =>
        let errs := errs ++ cerr mode "Incorrect escape." (pos + 1)
        nextTokenLoop mode line fuel .esc (result ++ buffer) "&" classes (pos + 1) errs
      | some c =>
        if isEscBufC c then
          nextTokenLoop mode line fuel .esc result (buffer.push c) classes (pos + 1) errs
        else if c = ';' then
          match matchNumRef buffer.data with
          | some (isHex, ds) => do
            let s ← fromCodePoint
              (if isHex then decDigitsToNatBase16 ds else digitsToNat ds)
            nextTokenLoop mode line fuel .data (result ++ s) buffer classes (pos + 1) errs
          | none =>
            let errs := errs ++ cerr mode "Incorrect escape." (pos + 1)
            nextTokenLoop mode line fuel .data (result ++ buffer ++ ";") buffer classes (pos + 1) errs
        else
          let errs := errs ++ cerr mode "Incorrect escape." (pos + 1)
          nextTokenLoop mode line fuel .data (result ++ buffer ++ String.mk [c]) buffer classes
            (pos + 1) errs
    | .tag =>
      match c? with
      | some '\t' => nextTokenLoop mode line fuel .stagAnn result buffer classes (pos + 1) errs
      | some '\n' => nextTokenLoop mode line fuel .stagAnn result buffer classes (pos + 1) errs
      | some '\x0c' => nextTokenLoop mode line fuel .stagAnn result buffer classes (pos + 1) errs
      | some ' ' => nextTokenLoop mode line fuel .stagAnn result buffer classes (pos + 1) errs
      | some '.' => nextTokenLoop mode line fuel .stagClass result buffer classes (pos + 1) errs
      | some '/' => nextTokenLoop mode line fuel .etag result buffer classes (pos + 1) errs
      | some '>' => .ok (.startTag "" [] "", pos + 1, errs)
      | none => .ok (.startTag "" [] "", pos, errs)
      | some c =>
        if isDigitC c then
          nextTokenLoop mode line fuel .tstag (String.mk [c]) buffer classes (pos + 1) errs
        else
          nextTokenLoop mode line fuel .stag (String.mk [c]) buffer classes (pos + 1) errs
    | .stag =>
      match c? with
      | some '\t' => nextTokenLoop mode line fuel .stagAnn result buffer classes (pos + 1) errs
      | some '\x0c' => nextTokenLoop mode line fuel .stagAnn result buffer classes (pos + 1) errs
      | some ' ' => nextTokenLoop mode line fuel .stagAnn result buffer classes (pos + 1) errs
      | some '\n' => nextTokenLoop mode line fuel .stagAnn result "\n" classes (pos + 1) errs
      | some '.' => nextTokenLoop mode line fuel .stagClass result buffer classes (pos + 1) errs
      | some '>' => .ok (.startTag result [] "", pos + 1, errs)
      | none => .ok (.startTag result [] "", pos, errs)
      | some c => nextTokenLoop mode line fuel .stag (result.push c) buffer classes (pos + 1) errs
    | .stagClass =>
      match c? with
      | some '\t' =>
        nextTokenLoop mode line fuel .stagAnn result ""
          (if buffer ≠ "" then classes ++ [buffer] else classes) (pos + 1) errs
      | some '\x0c' =>
        nextTokenLoop mode line fuel .stagAnn result ""
          (if buffer ≠ "" then classes ++ [buffer] else classes) (pos + 1) errs
      | some ' ' =>
        nextTokenLoop mode line fuel .stagAnn result ""
          (if buffer ≠ "" then classes ++ [buffer] else classes) (pos + 1) errs
      | some '\n' =>
        nextTokenLoop mode line fuel .stagAnn result "\n"
          (if buffer ≠ "" then classes ++ [buffer] else classes) (pos + 1) errs
      | some '.' =>
        nextTokenLoop mode line fuel .stagClass result ""
          (if buffer ≠ "" then classes ++ [buffer] else classes) (pos + 1) errs
      | some '>' =>
        .ok (.startTag result (if buffer ≠ "" then classes ++ [buffer] else classes) "",
          pos + 1, errs)
      | none =>
        .ok (.startTag result (if buffer ≠ "" then classes ++ [buffer] else classes) "",
          pos, errs)
      | some c =>
        nextTokenLoop mode line fuel .stagClass result (buffer.push c) classes (pos + 1) errs
    | .stagAnn =>
      match c? with
      | some '>' => .ok (.startTag result classes (annNormalize buffer), pos + 1, errs)
      | none => .ok (.startTag result classes (annNormalize buffer), pos, errs)
      | some c => nextTokenLoop mode line fuel .stagAnn result (buffer.push c) classes (pos + 1) errs
    | .etag =>
      match c? with
      | some '>' => .ok (.endTag result, pos + 1, errs)
      | none => .ok (.endTag result, pos, errs)
      | some c => nextTokenLoop mode line fuel .etag (result.push c) buffer classes (pos + 1) errs
    | .tstag =>
      match c? with
      | some '>' => .ok (.tsTag result, pos + 1, errs)
      | none => .ok (.tsTag result, pos, errs)
      | some c => nextTokenLoop mode line fuel .tstag (result.push c) buffer classes (pos + 1) errs
  else .error "unreachable: nextToken fell through"

/-- `#nextToken()` entry: state `data`, empty result/buffer/classes.  Each
loop iteration advances the cursor (the default entity keys are non-empty),
so `line.length + 2` units of fuel always suffice; running out is modelled
as an error (unreachable). -/
def nextToken (mode : Mode) (line : List Char) (pos : ℕ) :
    Except String (Token × ℕ × List PErr) :=
  nextTokenLoop mode line (line.length + 2) .data "" "" [] pos []

/-- An in-progress element during tree construction (the JS code links
children into the tree immediately and keeps `parent` back-references; we
keep an explicit stack instead, transferring a completed node to its parent
when it is popped — same resulting tree, no cycles to strip). -/
structure Frame where
  name : String
  classes : List String
  value : Option String := none
  children : List Node := []

/-- Construction state: the root's children plus the stack of open elements
(head = `current`). -/
structure BuildSt where
  root : List Node := []
  stack : List Frame := []

/-- Append a node to the current node's child list. -/
def pushChild (node : Node) (st : BuildSt) : BuildSt :=
  match st.stack with
  | [] => { st with root := st.root ++ [node] }
  | f :: rest => { st with stack := { f with children := f.children ++ [node] } :: rest }

/-- `attach(token)`: open a new element as a child of `current`. -/
def attachFrame (name : String) (classes : List String) (st : BuildSt) : BuildSt :=
  { st with stack := { name := name, classes := classes } :: st.stack }

/-- `current = current.parent`: close the current element, transferring it
to its parent. -/
def popFrame (st : BuildSt) : BuildSt :=
  match st.stack with
  | [] => st
  | f :: rest => pushChild (.object f.name f.classes f.value f.children) { st with stack := rest }

/-- `inScope(name)`: does any open ancestor have this tag name? -/
def inScope (name : String) (st : BuildSt) : Bool :=
  st.stack.any (·.name = name)

/-- The tag name of `current` (`none` at the root, whose `name` is
`undefined` in JS). -/
def currentName (st : BuildSt) : Option String :=
  st.stack.head?.map (·.name)

/-- `value` assignment on `current` (the `v`/`lang` annotation). -/
def setCurrentValue (v : String) (st : BuildSt) : BuildSt :=
  match st.stack with
  | [] => st
  | f :: rest => { st with stack := { f with value := some v } :: rest }

/-- Collapse a completed innermost node through the remaining open frames
(each completed node becomes the last child of the frame above it). -/
def collapseStack (node : Node) : List Frame → Node
  | [] => node
  | g :: rs => collapseStack (.object g.name g.classes g.value (g.children ++ [node])) rs

/-- The "Required end tag missing." diagnostics of the end-of-input walk,
innermost frame first. -/
def closeErrs (mode : Mode) (pos : ℕ) (stack : List Frame) : List PErr :=
  stack.flatMap (fun f =>
    if f.name ≠ "v" then cerr mode "Required end tag missing." (pos + 1) else [])

/-- End-of-input walk: `while (current.parent)`, diagnosing every still-open
non-`v` element and closing it (equivalently: collapse the whole stack into
one node appended to the root). -/
def closeAll (mode : Mode) (pos : ℕ) (st : BuildSt) (errs : List PErr) :
    BuildSt × List PErr :=
  let errs := errs ++ closeErrs mode pos st.stack
  match st.stack with
  | [] => (st, errs)
  | f :: rest =>
    ({ root := st.root ++ [collapseStack (.object f.name f.classes f.value f.children) rest],
       stack := [] }, errs)

/-- One dispatch step of `WebVttCueTextParser.parse` on a produced token. -/
def dispatchToken (mode : Mode) (cueStart cueEnd : ℚ) (tok : Token) (pos : ℕ)
    (st : BuildSt) (timestamps : List ℚ) (errs : List PErr) :
    BuildSt × List ℚ × List PErr :=
  match tok with
  | .text s => (pushChild (.text s) st, timestamps, errs)
  | .startTag name classes ann =>
    let errs := if mode = .chapters then
        errs ++ cerr mode "Start tags not allowed in chapter title text." (pos + 1)
      else errs
    let errs := if name ≠ "v" && name ≠ "lang" && ann ≠ "" then
        errs ++ cerr mode "Only <v> and <lang> can have an annotation." (pos + 1)
      else errs
    if name = "c" || name = "i" || name = "b" || name = "u" || name = "ruby" then
      (attachFrame name classes st, timestamps, errs)
    else if name = "rt" && currentName st = some "ruby" then
      (attachFrame name classes st, timestamps, errs)
    else if name = "v" then
      let errs := if inScope "v" st then
          errs ++ cerr mode "<v> cannot be nested inside itself." (pos + 1)
        else errs
      let st := setCurrentValue ann (attachFrame name classes st)
      let errs := if ann = "" then errs ++ cerr mode "<v> requires an annotation." (pos + 1)
        else errs
      (st, timestamps, errs)
    else if name = "lang" then
      (setCurrentValue ann (attachFrame name classes st), timestamps, errs)
    else
      (st, timestamps, errs ++ cerr mode "Incorrect start tag." (pos + 1))
  | .endTag name =>
    let errs := if mode = .chapters then
        errs ++ cerr mode "End tags not allowed in chapter title text." (pos + 1)
      else errs
    if currentName st = some name then
      (popFrame st, timestamps, errs)
    else if name = "ruby" && currentName st = some "rt" then
      (popFrame (popFrame st), timestamps, errs)
    else
      (st, timestamps, errs ++ cerr mode "Incorrect end tag." (pos + 1))
  | .tsTag raw =>
    let errs := if mode = .chapters then
        errs ++ cerr mode "Timestamp not allowed in chapter title text." (pos + 1)
      else errs
    -- the timings parser's error handler is the cue text parser's `#err`,
    -- which ignores the passed column and uses the cue text cursor
    match parseTimestampStandalone raw.data with
    | (ts?, terrs) =>
      let errs := errs ++ (terrs.map (fun e => (e.1, pos + 1))).foldr
        (fun e acc => cerr mode e.1 e.2 ++ acc) []
      match ts? with
      | some t =>
        let errs := if t ≤ cueStart || t ≥ cueEnd then
            errs ++ cerr mode "Timestamp must be between start timestamp and end timestamp."
              (pos + 1)
          else errs
        let errs := if timestamps.getLast? |>.any (· ≥ t) then
            errs ++ cerr mode "Timestamp must be greater than any previous timestamp." (pos + 1)
          else errs
        (pushChild (.timestamp t) st, timestamps ++ [t], errs)
      | none => (st, timestamps, errs)

/-- The token loop of `WebVttCueTextParser.parse`.  Each call to
`#nextToken` from a position `< line.length` advances the cursor, so
`line.length + 1` units of fuel always suffice; running out is modelled as
an error (unreachable). -/
def cueTextLoop (mode : Mode) (line : List Char) (cueStart cueEnd : ℚ) (fuel : ℕ)
    (pos : ℕ) (st : BuildSt) (timestamps : List ℚ) (errs : List PErr) :
    Except String (ℕ × BuildSt × List PErr) :=
  match fuel with
  | 0 => .error "fuel exhausted"
  | fuel + 1 =>
    match line.get? pos with
    | none => .ok (pos, st, errs)
    | some _ => do
      let (tok, pos', terrs) ← nextToken mode line pos
      let errs := errs ++ terrs
      let (st, timestamps, errs) := dispatchToken mode cueStart cueEnd tok pos' st timestamps errs
      cueTextLoop mode line cueStart cueEnd fuel pos' st timestamps errs

/-- `WebVttCueTextParser.parse(cueStart, cueEnd)`: returns the final tree
(the root's children) and the diagnostics.  `removeCycles` is the identity
here because the stack-based construction never creates back-references. -/
def cueTextParse (text : String) (mode : Mode) (cueStart cueEnd : ℚ) :
    Except String (List Node × List PErr) := do
  let line := text.data
  let (pos, st, errs) ← cueTextLoop mode line cueStart cueEnd (line.length + 1) 0 {} [] []
  let (st, errs) := closeAll mode pos st errs
  .ok (st.root, errs)

/-! ## WebVttParser.parse (the cue assembler) -/

/-- `parse`'s result record.  `time` (wall clock) is not modelled and is
always `0`. -/
structure ParseResult where
  cues : List Cue
  errors : List VttError
  time : ℕ := 0
  styles : List String

instance : Inhabited ParseResult := ⟨{ cues := [], errors := [], styles := [] }⟩

/-- `/^NOTE($|[ \t])/.test(s)`. -/
def isNoteLine (s : String) : Bool :=
  s = "NOTE" || "NOTE ".data.isPrefixOf s.data || "NOTE\t".data.isPrefixOf s.data

/-- `/^STYLE($|[ \t])/.test(s)`. -/
def isStyleLine (s : String) : Bool :=
  s = "STYLE" || "STYLE ".data.isPrefixOf s.data || "STYLE\t".data.isPrefixOf s.data

/-- The blank-line skip at the top of the cue loop (consumes exactly the
run of `""` lines after the cursor). -/
def skipBlanks (lines : List String) (lp : ℕ) : ℕ :=
  lp + ((lines.drop lp).takeWhile (· = "")).length

/-- A non-blank line run after the cursor (the segment all the block loops
walk: `while (lines[linePos] !== \'\' && lines[linePos] != null)`). -/
def blockSeg (lines : List String) (lp : ℕ) : List String :=
  (lines.drop lp).takeWhile (· ≠ "")

/-- Per-line diagnostics of a block walk starting at 0-based line `lp`:
`msg` on each line of `seg` satisfying `flag`. -/
def segErrs (msg : String) (flag : String → Bool) (lp : ℕ) : List String → List VttError
  | [] => []
  | l :: ls =>
    (if flag l then [{ message := msg, line := lp + 1 }] else []) ++
      segErrs msg flag (lp + 1) ls

/-- The NOTE comment loop: consume to the next blank line, flagging embedded
`-->`; content is discarded. -/
def noteLoop (lines : List String) (lp : ℕ) : ℕ × List VttError :=
  let seg := blockSeg lines lp
  (lp + seg.length, segErrs "Cannot have timestamp in a comment." hasArrow lp seg)

/-- The STYLE block loop: collect lines to the next blank line, flagging
embedded `-->` (which invalidates the block). -/
def styleLoop (lines : List String) (lp : ℕ) :
    ℕ × List String × Bool × List VttError :=
  let seg := blockSeg lines lp
  (lp + seg.length, seg, seg.any hasArrow,
    segErrs "Cannot have timestamp in a style block." hasArrow lp seg)

/-- The BAD CUE recovery loop: skip to the next blank line, or to the next
`-->`-bearing line (setting `alreadyCollected`). -/
def badCueLoop (lines : List String) (lp : ℕ) : ℕ × Bool :=
  let seg := (lines.drop lp).takeWhile (fun l => l ≠ "" && !hasArrow l)
  let lp := lp + seg.length
  match lines.get? lp with
  | some l => if hasArrow l then (lp, true) else (lp, false)
  | none => (lp, false)

/-- The CUE TEXT loop: join payload lines with `\n` until a blank line; a
`-->`-bearing line ends the payload with a diagnostic and sets
`alreadyCollected`. -/
def cueTextCollect (lines : List String) (lp : ℕ) :
    ℕ × String × Bool × List VttError :=
  let seg := (lines.drop lp).takeWhile (fun l => l ≠ "" && !hasArrow l)
  let text := String.intercalate "\n" seg
  let lp := lp + seg.length
  match lines.get? lp with
  | some l =>
    if l ≠ "" then
      -- necessarily a `-->`-bearing line
      (lp, text, true, [{ message := "Blank line missing before cue.", line := lp + 1 }])
    else (lp, text, false, [])
  | none => (lp, text, false, [])

/-- The HEADER loop: diagnose each non-blank header line; abort into the cue
loop (with `alreadyCollected`) on a `-->`-bearing line (which is also
diagnosed before the abort). -/
def headerLoop (lines : List String) (lp : ℕ) : ℕ × Bool × List VttError :=
  let seg := blockSeg lines lp
  let pre := seg.takeWhile (fun l => !hasArrow l)
  if pre.length = seg.length then
    (lp + seg.length, false, segErrs "No blank line after the signature." (fun _ => true) lp pre)
  else
    (lp + pre.length, true,
      segErrs "No blank line after the signature." (fun _ => true) lp pre ++
        [{ message := "No blank line after the signature.", line := lp + pre.length + 1 }])

/-- Lift a timings/cue-text diagnostic to a `VttError` at 1-based line
`lp + 1`. -/
def liftErrs (lp : ℕ) (errs : List PErr) : List VttError :=
  errs.map (fun e => { message := e.1, line := lp + 1, col := some e.2 })

/-- The TIMINGS / CUE TEXT PROCESSING part of a cue-loop iteration (the JS
code first resets `alreadyCollected` to `false` here).  Returns the next
cursor, the `alreadyCollected` flag produced by the recovery/text loops, and
the updated cue/error lists for the loop to continue with. -/
def cueTimingsStep (mode : Mode) (lines : List String) (lp : ℕ) (cues : List Cue)
    (errors : List VttError) (cue : Cue) :
    Except String (ℕ × Bool × List Cue × List VttError) :=
  let previousCueStart := ((cues.getLast?).map (·.startTime)).getD 0
  match tsaParse ((lines.get? lp).getD "").data cue previousCueStart with
  | (ok, cue, terrs) =>
    let errors := errors ++ liftErrs lp terrs
    if !ok then
      -- BAD CUE: discard and resynchronize
      let (lp2, ac2) := badCueLoop lines (lp + 1)
      .ok (lp2, ac2, cues, errors)
    else
      let lp := lp + 1
      match cueTextCollect lines lp with
      | (lp2, text, ac2, berrs) =>
        let errors := errors ++ berrs
        let cue := { cue with text := text }
        match cueTextParse text mode cue.startTime cue.endTime with
        | .error e => .error e
        | .ok (tree, cerrs) =>
          .ok (lp2, ac2, cues ++ [{ cue with tree := tree }], errors ++ liftErrs lp2 cerrs)

/-- The CUE LOOP of `WebVttParser.parse`.  Every iteration advances
`linePos`, so `lines.length + 1` units of fuel always suffice; running out
is modelled as an error (unreachable). -/
def cueLoop (mode : Mode) (lines : List String) (fuel : ℕ) (lp : ℕ)
    (alreadyCollected : Bool) (styles : List String) (cues : List Cue)
    (errors : List VttError) : Except String (List Cue × List VttError × List String) :=
  match fuel with
  | 0 => .error "fuel exhausted"
  | fuel + 1 =>
    match lines.get? lp with
    | none => .ok (cues, errors, styles)
    | some _ =>
      let lp := if alreadyCollected then lp else skipBlanks lines lp
      if !alreadyCollected && lines.get? lp = none then .ok (cues, errors, styles)
      else
        let cue : Cue := {}
        if !hasArrow ((lines.get? lp).getD "") then
          let cue := { cue with id := some ((lines.get? lp).getD "") }
          if isNoteLine ((lines.get? lp).getD "") then
            let (lp2, nerrs) := noteLoop lines (lp + 1)
            cueLoop mode lines fuel lp2 alreadyCollected styles cues (errors ++ nerrs)
          else if isStyleLine ((lines.get? lp).getD "") then
            let (lp2, styleLines, invalid, serrs) := styleLoop lines (lp + 1)
            if cues.length ≠ 0 then
              cueLoop mode lines fuel lp2 alreadyCollected styles cues
                (errors ++ serrs ++
                  [{ message := "Style blocks cannot appear after the first cue.",
                     line := lp2 + 1 }])
            else if !invalid then
              cueLoop mode lines fuel lp2 alreadyCollected
                (styles ++ [String.intercalate "\n" styleLines]) cues (errors ++ serrs)
            else
              cueLoop mode lines fuel lp2 alreadyCollected styles cues (errors ++ serrs)
          else
            let lp := lp + 1
            if lines.get? lp = some "" || lines.get? lp = none then
              cueLoop mode lines fuel lp alreadyCollected styles cues
                (errors ++ [{ message := "Cue identifier cannot be standalone.", line := lp + 1 }])
            else if !hasArrow ((lines.get? lp).getD "") then
              -- `parseTimings = false` then `continue`
              cueLoop mode lines fuel lp alreadyCollected styles cues
                (errors ++
                  [{ message := "Cue identifier needs to be followed by timestamp.",
                     line := lp + 1 }])
            else
              match cueTimingsStep mode lines lp cues errors cue with
              | .error e => .error e
              | .ok (lp2, ac2, cues, errors) =>
                cueLoop mode lines fuel lp2 ac2 styles cues errors
        else
          match cueTimingsStep mode lines lp cues errors cue with
          | .error e => .error e
          | .ok (lp2, ac2, cues, errors) =>
            cueLoop mode lines fuel lp2 ac2 styles cues errors

/-- The signature check on line 0 (optional BOM, literal `WEBVTT`, then end
or space/tab). -/
def signatureErrs (line : String) : List VttError :=
  let bom := if line.data.head? = some '\uFEFF' then 1 else 0
  let signatureLength := 6 + bom
  if line.length < signatureLength ||
      jsIndexOf "WEBVTT".data line.data ≠ some bom ||
      (line.length > signatureLength &&
        line.data.get? signatureLength ≠ some ' ' &&
        line.data.get? signatureLength ≠ some '\t') then
    [{ message := "No valid signature. (File needs to start with \"WEBVTT\".)", line := 1 }]
  else []

/-- The JS sort comparator `a.startTime - b.startTime || a.endTime -
b.endTime` (`||` keeps the first operand when it is non-zero). -/
def cueCmp (a b : Cue) : ℚ :=
  if a.startTime - b.startTime ≠ 0 then a.startTime - b.startTime
  else a.endTime - b.endTime

/-- `cueCmp a b ≤ 0`: the order the comparator sorts into. -/
def cueLe (a b : Cue) : Bool :=
  cueCmp a b ≤ 0

/-- `WebVttParser.parse` up to (but not including) the final sort. -/
def vttParseCore (input : String) (mode : Mode) : Except String ParseResult := do
  let input := replaceNuls input
  let lines := splitLines input
  let line := lines.headD ""
  let sigErrs := signatureErrs line
  let (lp, alreadyCollected, headErrs) := headerLoop lines 1
  let (cues, loopErrs, styles) ←
    cueLoop mode lines (lines.length + 1) lp alreadyCollected [] [] []
  .ok { cues := cues, errors := sigErrs ++ headErrs ++ loopErrs, styles := styles }

/-- `WebVttParser.parse(input, mode)`: the core followed by
`cues.sort((a, b) => a.startTime - b.startTime || a.endTime - b.endTime)`. -/
def vttParse (input : String) (mode : Mode) : Except String ParseResult := do
  let r ← vttParseCore input mode
  .ok { r with cues := stableSort cueLe r.cues }

/-! ## WebVttSerializer -/

/-- `#serializeTimestamp(seconds)`. -/
def serializeTimestamp (seconds : ℚ) : String :=
  let ms := padZero 3 (intRepr (jsRound (1000 * jsMod1 seconds)))
  let h : ℤ := if seconds ≥ 3600 then (seconds / 3600).floor else 0
  let m : ℤ := ((seconds - 3600 * h) / 60).floor
  let s : ℤ := (seconds - 3600 * h - 60 * m).floor
  (if h ≠ 0 then intRepr h ++ ":" else "") ++
    padZero 2 (intRepr m) ++ ":" ++ padZero 2 (intRepr s) ++ "." ++ ms

/-- `'' + cue.linePosition` / `'' + cue.textPosition` (the JS value is the
string `'auto'` or a number). -/
def autoNumToString (v : Option ℚ) : String :=
  match v with
  | none => "auto"
  | some q => jsNumToString q

/-- `#serializeCueSettings(cue)`: settings are emitted only where they
differ from `defaultCueSettings`. -/
def serializeCueSettings (cue : Cue) : String :=
  let r := ""
  let r := if cue.direction ≠ "horizontal" then r ++ " vertical:" ++ cue.direction else r
  let r := if cue.alignment ≠ "center" then r ++ " align:" ++ cue.alignment else r
  let r := if cue.size ≠ 100 then r ++ " size:" ++ jsNumToString cue.size ++ "%" else r
  let r :=
    if cue.lineAlign ≠ "start" || cue.linePosition ≠ none then
      r ++ " line:" ++ autoNumToString cue.linePosition ++
        (if cue.snapToLines then "" else "%") ++
        (if cue.lineAlign ≠ "" && cue.lineAlign ≠ "start" then "," ++ cue.lineAlign else "")
    else r
  let r :=
    if cue.textPosition ≠ none || cue.positionAlign ≠ "auto" then
      r ++ " position:" ++ autoNumToString cue.textPosition ++ "%" ++
        (if cue.positionAlign ≠ "" && cue.positionAlign ≠ "auto" then
          "," ++ cue.positionAlign else "")
    else r
  r

/-- `if (node.value)`: JS truthiness of the optional annotation string. -/
def valueTruthy (v : Option String) : Bool :=
  match v with
  | none => false
  | some s => s ≠ ""

mutual

/-- `#serializeTree(tree)` on one node. -/
def serializeNode : Node → String
  | .text v =>
    String.mk (v.data.flatMap (fun c =>
      if c = '&' then "&amp;".data
      else if c = '<' then "&lt;".data
      else if c = '>' then "&gt;".data
      else [c]))
  | .object name classes value children =>
    "<" ++ name ++ String.join (classes.map ("." ++ ·)) ++
      (if valueTruthy value then " " ++ value.getD "" else "") ++ ">" ++
      serializeNodes children ++ "</" ++ name ++ ">"
  | .timestamp v => "<" ++ serializeTimestamp v ++ ">"

/-- `#serializeTree(tree)` over a child list. -/
def serializeNodes : List Node → String
  | [] => ""
  | n :: ns => serializeNode n ++ serializeNodes ns

end

/-- `#serializeCue(cue)`. -/
def serializeCue (cue : Cue) : String :=
  (match cue.id with
   | some s => s ++ "\n"
   | none => "") ++
    serializeTimestamp cue.startTime ++ " --> " ++ serializeTimestamp cue.endTime ++
    serializeCueSettings cue ++ "\n" ++ serializeNodes cue.tree ++ "\n\n"

/-- `#serializeStyle(style)`. -/
def serializeStyle (style : String) : String :=
  "STYLE\n" ++ style ++ "\n\n"

/-- `WebVttSerializer.serialize(cues, styles)`. -/
def serialize (cues : List Cue) (styles : List String) : String :=
  "WEBVTT\n\n" ++ String.join (styles.map serializeStyle) ++
    String.join (cues.map serializeCue)

/-- Extract the result of a successful parse (`default` is never used: every
theorem below pairs this with a proof that the parse succeeded). -/
def okResult (r : Except String ParseResult) : ParseResult :=
  r.toOption.getD default

/-! ## Claims -/

/-- C1: the spec claims parse never lets an exception escape — every failure
surfaces only as a diagnostic.  The code violates this: a numeric character
reference whose code point exceeds `0x10FFFF` (here `&#1114112;` in cue
payload text) reaches `String.fromCodePoint`, which throws a `RangeError`
that escapes `parse`. -/
theorem c1_fromCodePoint_exception_escapes :
    vttParse "WEBVTT\n\n00:00:00.000 --> 00:00:01.000\n&#1114112;" .metadata =
      .error "RangeError: Invalid code point" := rfl

/-- C2 (counterexample): the claim says a timestamp with a one-digit leading
run such as `"1:00:00.000"` yields a diagnostic and no value.  In fact the
parser takes the `hh:mm:ss.mmm` branch whenever a second colon follows the
two-digit group (`units === 'hours' || line[pos] === ':'`) and parses it to
3600 with no diagnostic. -/
theorem c2_counterexample :
    timestampP "1:00:00.000".data 0 = (some 3600, 11, []) := by decide

/-- C3: the spec claims an accepted percentage `line` setting always leaves
`linePosition ∈ [0,100]`.  The guard is `parseInt(value, 10) > 100`, which
truncates the fractional part, so `line:100.5%` is accepted without any
diagnostic and sets `linePosition = 100.5 > 100` with `snapToLines = false`.
(The sibling `size` setting checks the parsed float instead, and the code's
own diagnostic reads "Line position cannot be >100%." — the claim matches
the intent and the truncating check is the slip.) -/
theorem c3_percent_line_accepts_over_100 :
    (vttParse "WEBVTT\n\n00:00:00.000 --> 00:00:01.000 line:100.5%\nx"
        .metadata).toOption.isSome = true ∧
    (okResult (vttParse "WEBVTT\n\n00:00:00.000 --> 00:00:01.000 line:100.5%\nx"
        .metadata)).cues.map (·.snapToLines) = [false] ∧
    (okResult (vttParse "WEBVTT\n\n00:00:00.000 --> 00:00:01.000 line:100.5%\nx"
        .metadata)).cues.map (·.linePosition) = [some (201 / 2)] ∧
    (okResult (vttParse "WEBVTT\n\n00:00:00.000 --> 00:00:01.000 line:100.5%\nx"
        .metadata)).errors = [] ∧
    ¬((201 / 2 : ℚ) ≤ 100) := by decide

/-- C5: the timing line `"00:00:01.000 --> 00:00:00.000"` parses
successfully (no separator or format error), yields exactly the diagnostic
"End timestamp is not greater than start timestamp." (line 3, column 30),
and the cue is retained with `startTime = 1`, `endTime = 0`. -/
theorem c5_nonpositive_duration_cue_retained :
    (vttParse "WEBVTT\n\n00:00:01.000 --> 00:00:00.000\nx" .metadata).toOption.isSome
      = true ∧
    (okResult (vttParse "WEBVTT\n\n00:00:01.000 --> 00:00:00.000\nx" .metadata)).errors =
      [{ message := "End timestamp is not greater than start timestamp.",
         line := 3, col := some 30 }] ∧
    (okResult (vttParse "WEBVTT\n\n00:00:01.000 --> 00:00:00.000\nx" .metadata)).cues.map
      (·.startTime) = [1] ∧
    (okResult (vttParse "WEBVTT\n\n00:00:01.000 --> 00:00:00.000\nx" .metadata)).cues.map
      (·.endTime) = [0] := by decide

/-- C6 (counterexample): the claim says every `;`-terminated hexadecimal
reference `&#xHH;` decodes to the character with code point `0xHH` without a
diagnostic.  The regex `/^&#(x)?([0-9]+)$/` only admits decimal digits after
the `x`, so `&#xf;` does not decode to `U+000F`: it produces the diagnostic
"Incorrect escape." and the literal text `"&#xf;"`. -/
theorem c6_counterexample :
    cueTextParse "&#xf;" .chapters 0 1 =
      .ok ([Node.text "&#xf;"], [("Incorrect escape.", 5)]) ∧
    "&#xf;" ≠ String.mk [Char.ofNat 0xf] :=
  ⟨rfl, by decide⟩

/-- C10: `#serializeCue` emits the id line whenever `cue.id` is not
null/undefined — including when it is the empty string (as on every cue
`parse` builds from a block without an identifier line) — so the serialized
block begins with a blank line followed by the timing line. -/
theorem c10_empty_id_serializes_leading_blank_line (cue : Cue) (h : cue.id = some "") :
    serializeCue cue =
      "\n" ++ serializeTimestamp cue.startTime ++ " --> " ++
        serializeTimestamp cue.endTime ++ serializeCueSettings cue ++ "\n" ++
        serializeNodes cue.tree ++ "\n\n" := by
  simp [serializeCue, h]

/-- Witness for C10 at a cue actually produced by `parse` from a block
without an identifier line. -/
theorem c10_witness :
    (let c := ((okResult (vttParse "WEBVTT\n\n00:00:00.000 --> 00:00:01.000\nhi"
        .metadata)).cues.headD {})
     serializeCue c =
       "\n" ++ serializeTimestamp c.startTime ++ " --> " ++
         serializeTimestamp c.endTime ++ serializeCueSettings c ++ "\n" ++
         serializeNodes c.tree ++ "\n\n") :=
  c10_empty_id_serializes_leading_blank_line _ (by decide)

/-! ## Lemmas: the stable sort -/

section StableSortLemmas

variable {α : Type} (le : α → α → Bool)

theorem stableInsert_perm (a : α) (l : List α) :
    List.Perm (stableInsert le a l) (a :: l) := by
  induction l with
  | nil => simp [stableInsert]
  | cons b bs ih =>
    by_cases h : le a b = true
    · simp [stableInsert, h]
    · simp only [stableInsert, if_neg h]
      exact (ih.cons b).trans (List.Perm.swap a b bs)

theorem stableSort_perm (l : List α) : List.Perm (stableSort le l) l := by
  induction l with
  | nil => simp [stableSort]
  | cons a as ih =>
    exact (stableInsert_perm le a (stableSort le as)).trans (ih.cons a)

theorem mem_stableInsert {x a : α} {l : List α} :
    x ∈ stableInsert le a l ↔ x = a ∨ x ∈ l := by
  rw [(stableInsert_perm le a l).mem_iff, List.mem_cons]

theorem pairwise_stableInsert
    (htrans : ∀ x y z, le x y = true → le y z = true → le x z = true)
    (htotal : ∀ x y, le x y = true ∨ le y x = true)
    (a : α) (l : List α) (h : l.Pairwise (le · · = true)) :
    (stableInsert le a l).Pairwise (le · · = true) := by
  induction l with
  | nil => simp [stableInsert]
  | cons b bs ih =>
    rcases List.pairwise_cons.mp h with ⟨hb, hbs⟩
    by_cases hle : le a b = true
    · simp only [stableInsert, if_pos hle]
      refine List.pairwise_cons.mpr ⟨?_, h⟩
      intro y hy
      rcases List.mem_cons.mp hy with rfl | hy
      · exact hle
      · exact htrans a b y hle (hb y hy)
    · simp only [stableInsert, if_neg hle]
      refine List.pairwise_cons.mpr ⟨?_, ih hbs⟩
      intro y hy
      rcases (mem_stableInsert le).mp hy with rfl | hy
      · rcases htotal y b with h1 | h1
        · exact absurd h1 hle
        · exact h1
      · exact hb y hy

theorem pairwise_stableSort
    (htrans : ∀ x y z, le x y = true → le y z = true → le x z = true)
    (htotal : ∀ x y, le x y = true ∨ le y x = true)
    (l : List α) : (stableSort le l).Pairwise (le · · = true) := by
  induction l with
  | nil => simp [stableSort]
  | cons a as ih => exact pairwise_stableInsert le htrans htotal a _ ih

theorem filter_stableInsert_neg (p : α → Bool) {a : α} (hp : p a = false) (l : List α) :
    (stableInsert le a l).filter p = l.filter p := by
  induction l with
  | nil => simp [stableInsert, hp]
  | cons b bs ih =>
    by_cases hle : le a b = true
    · simp [stableInsert, hle, hp]
    · simp only [stableInsert, if_neg hle]
      by_cases hb : p b = true <;> simp [List.filter, hb, ih, hp]

theorem filter_stableInsert_pos (p : α → Bool) {a : α} (hp : p a = true) (l : List α)
    (hall : ∀ y ∈ l, p y = true → le a y = true) :
    (stableInsert le a l).filter p = a :: l.filter p := by
  induction l with
  | nil => simp [stableInsert, hp]
  | cons b bs ih =>
    by_cases hle : le a b = true
    · simp [stableInsert, hle, hp]
    · have hb : p b = false := by
        rcases hpb : p b with _ | _
        · rfl
        · exact absurd (hall b (List.mem_cons_self b bs) hpb) hle
      simp only [stableInsert, if_neg hle]
      have := ih (fun y hy hpy => hall y (List.mem_cons_of_mem b hy) hpy)
      simp [List.filter, hb, this]

theorem filter_stableSort (p : α → Bool)
    (hmut : ∀ x y, p x = true → p y = true → le x y = true) (l : List α) :
    (stableSort le l).filter p = l.filter p := by
  induction l with
  | nil => simp [stableSort]
  | cons a as ih =>
    rcases hp : p a with _ | _
    · rw [stableSort, filter_stableInsert_neg le p hp, ih]
      simp [List.filter, hp]
    · rw [stableSort, filter_stableInsert_pos le p hp _
        (fun y _ hpy => hmut a y hp hpy), ih]
      simp [List.filter, hp]

end StableSortLemmas

/-- `cueLe` expressed as the lexicographic `(startTime, endTime)` order. -/
theorem cueLe_iff (a b : Cue) :
    cueLe a b = true ↔
      (a.startTime < b.startTime ∨
        (a.startTime = b.startTime ∧ a.endTime ≤ b.endTime)) := by
  unfold cueLe cueCmp
  by_cases h : a.startTime - b.startTime ≠ 0
  · have hne : a.startTime ≠ b.startTime := fun he => h (by rw [he]; ring)
    simp only [if_pos h, decide_eq_true_eq]
    constructor
    · intro hle
      exact Or.inl (lt_of_le_of_ne (by linarith) hne)
    · rintro (hlt | ⟨heq, _⟩)
      · linarith
      · exact absurd heq hne
  · push_neg at h
    have heq : a.startTime = b.startTime := sub_eq_zero.mp h
    simp only [if_neg (not_not.mpr h), decide_eq_true_eq]
    constructor
    · intro hle
      exact Or.inr ⟨heq, by linarith⟩
    · rintro (hlt | ⟨_, hle⟩)
      · exact absurd heq (ne_of_lt hlt)
      · linarith

theorem cueLe_trans (a b c : Cue) (h1 : cueLe a b = true) (h2 : cueLe b c = true) :
    cueLe a c = true := by
  rw [cueLe_iff] at *
  rcases h1 with h1 | ⟨h1, h1e⟩ <;> rcases h2 with h2 | ⟨h2, h2e⟩
  · exact Or.inl (lt_trans h1 h2)
  · exact Or.inl (h2 ▸ h1)
  · exact Or.inl (h1 ▸ h2)
  · exact Or.inr ⟨h1.trans h2, le_trans h1e h2e⟩

theorem cueLe_total (a b : Cue) : cueLe a b = true ∨ cueLe b a = true := by
  rw [cueLe_iff, cueLe_iff]
  rcases lt_trichotomy a.startTime b.startTime with h | h | h
  · exact Or.inl (Or.inl h)
  · rcases le_total a.endTime b.endTime with he | he
    · exact Or.inl (Or.inr ⟨h, he⟩)
    · exact Or.inr (Or.inr ⟨h.symm, he⟩)
  · exact Or.inr (Or.inl h)

/-- C8: after the cue loop the returned cue list is sorted by
`(startTime, endTime)` ascending, and cues with equal keys keep their
encounter order (the model of `Array.prototype.sort` is a stable sort of the
pre-sort cue list `vttParseCore` produces). -/
theorem c8_cues_sorted_and_stable (input : String) (mode : Mode) (r : ParseResult)
    (h : vttParse input mode = .ok r) :
    r.cues.Pairwise (fun a b => a.startTime < b.startTime ∨
      (a.startTime = b.startTime ∧ a.endTime ≤ b.endTime)) ∧
    ∃ r₀, vttParseCore input mode = .ok r₀ ∧ r.cues = stableSort cueLe r₀.cues ∧
      ∀ s e : ℚ, r.cues.filter (fun c => decide (c.startTime = s ∧ c.endTime = e)) =
        r₀.cues.filter (fun c => decide (c.startTime = s ∧ c.endTime = e)) := by
  unfold vttParse at h
  rcases hc : vttParseCore input mode with e | r₀ <;> rw [hc] at h
  · simp [Bind.bind, Except.bind] at h
  · simp only [Bind.bind, Except.bind, Except.ok.injEq] at h
    subst h
    constructor
    · refine (pairwise_stableSort cueLe cueLe_trans cueLe_total r₀.cues).imp ?_
      intro a b hab
      exact (cueLe_iff a b).mp hab
    · refine ⟨r₀, rfl, rfl, ?_⟩
      intro s e
      refine filter_stableSort cueLe _ ?_ r₀.cues
      intro x y hx hy
      rw [decide_eq_true_eq] at hx hy
      rw [cueLe_iff]
      exact Or.inr ⟨hx.1.trans hy.1.symm, by rw [hx.2, hy.2]⟩

/-- Witness for C8 at a concrete input whose cues are out of order. -/
theorem c8_witness :
    ((okResult (vttParse
        "WEBVTT\n\nid1\n00:00:02.000 --> 00:00:03.000\na\n\n00:00:01.000 --> 00:00:02.000\nb"
        .metadata)).cues).Pairwise (fun a b => a.startTime < b.startTime ∨
      (a.startTime = b.startTime ∧ a.endTime ≤ b.endTime)) :=
  (c8_cues_sorted_and_stable
    "WEBVTT\n\nid1\n00:00:02.000 --> 00:00:03.000\na\n\n00:00:01.000 --> 00:00:02.000\nb"
    .metadata _ (by rfl)).1

/-- The acceptance test of the `line` guard chain: `some (numVal,
isPercent)` exactly when the token reaches the final assignments. -/
def lineValCore (value : String) (lineAlign? : Option String) : Option (String × Bool) :=
  if !lineRegexTest value.data then none
  else if (value.data.drop 1).contains '-' then none
  else if value.data.contains '%' && jsIndexOf ['%'] value.data ≠ some (value.length - 1) then
    none
  else if value.data.head? = some '-' && value.data.getLast? = some '%' then none
  else
    let isPercent := value.data.getLast? = some '%'
    let numVal := if isPercent then String.mk value.data.dropLast else value
    if isPercent && parseIntGt value 100 then none
    else if numVal = "" || jsIsNaN numVal || jsNotFinite numVal then none
    else
      match lineAlign? with
      | some la => if la ∉ ["start", "center", "end"] then none else some (numVal, isPercent)
      | none => some (numVal, isPercent)

/-- The acceptance test of a whole `line` settings token value. -/
def lineSettingNumVal (value0 : String) : Option (String × Bool) :=
  let parts :=
    if value0.data.contains ',' then splitAtPred (· = ',') value0.data else [value0]
  let value := parts.headD value0
  let lineAlign? : Option String := if value0.data.contains ',' then parts[1]? else none
  lineValCore value lineAlign?

theorem lineSettingCore_nonserializable_iff (value : String) (lineAlign? : Option String)
    (col : ℕ) (cue : Cue) (h : cue.nonSerializable = false) :
    ((lineSettingCore value lineAlign? col cue).1.nonSerializable = true ↔
      ∃ nv isP, lineValCore value lineAlign? = some (nv, isP) ∧
        decToString (jsParseFloat nv).toQ ≠ nv) := by
  unfold lineSettingCore lineValCore lineSettingAssign
  by_cases g1 : (!lineRegexTest value.data) = true
  · rw [if_pos g1, if_pos g1]; simp [h]
  rw [if_neg g1, if_neg g1]
  by_cases g2 : (value.data.drop 1).contains '-' = true
  · rw [if_pos g2, if_pos g2]; simp [h]
  rw [if_neg g2, if_neg g2]
  by_cases g3 : (value.data.contains '%' &&
      decide (jsIndexOf ['%'] value.data ≠ some (value.length - 1))) = true
  · rw [if_pos g3, if_pos g3]; simp [h]
  rw [if_neg g3, if_neg g3]
  by_cases g4 : (decide (value.data.head? = some '-') &&
      decide (value.data.getLast? = some '%')) = true
  · rw [if_pos g4, if_pos g4]; simp [h]
  rw [if_neg g4, if_neg g4]
  simp only []
  by_cases g5 : (decide (value.data.getLast? = some '%') && parseIntGt value 100) = true
  · rw [if_pos g5, if_pos g5]; simp [h]
  rw [if_neg g5, if_neg g5]
  by_cases g6 : (decide ((if value.data.getLast? = some '%' then
        String.mk value.data.dropLast else value) = "") ||
      jsIsNaN (if value.data.getLast? = some '%' then
        String.mk value.data.dropLast else value) ||
      jsNotFinite (if value.data.getLast? = some '%' then
        String.mk value.data.dropLast else value)) = true
  · rw [if_pos g6, if_pos g6]; simp [h]
  rw [if_neg g6, if_neg g6]
  rcases lineAlign? with _ | la
  · dsimp only
    by_cases g8 : decToString (jsParseFloat (if value.data.getLast? = some '%'
        then String.mk value.data.dropLast else value)).toQ ≠
        (if value.data.getLast? = some '%' then
          String.mk value.data.dropLast else value)
    · simp [g8, h]
    · simp [g8, h]
  · dsimp only
    by_cases g7 : la ∉ ["start", "center", "end"]
    · rw [if_pos g7, if_pos g7]; simp [h]
    rw [if_neg g7, if_neg g7]
    by_cases g8 : decToString (jsParseFloat (if value.data.getLast? = some '%'
        then String.mk value.data.dropLast else value)).toQ ≠
        (if value.data.getLast? = some '%' then
          String.mk value.data.dropLast else value)
    · simp [g8, h]
    · simp [g8, h]

/-- Counterexample for C9 as originally stated: the `line:0.0000005` token
is accepted (no diagnostic) and its numeric portion is exactly the canonical
plain decimal rendering of the parsed value, yet the program still sets
`nonSerializable`, because `Number.prototype.toString` renders magnitudes
below `10^-6` in exponential notation (`"5e-7" ≠ "0.0000005"`). -/
theorem c9_counterexample :
    (lineSetting "0.0000005" 31 {}).1.nonSerializable = true ∧
    (lineSetting "0.0000005" 31 {}).2 = [] ∧
    decToStringPlain (jsParseFloat "0.0000005").toQ = "0.0000005" ∧
    decToString (jsParseFloat "0.0000005").toQ = "5e-7" :=
  ⟨by decide, by decide, by decide, by decide⟩

/-- C9 (amended): an accepted `line` settings token sets the undocumented
`nonSerializable` flag exactly when the numeric portion of its value differs
from the JS `Number.prototype.toString` rendering of the parsed number,
which switches to exponential notation below `10^-6` and at or above
`10^21`; a cue whose accepted value matches that rendering keeps the flag
absent (`false`).  The last hypothesis restricts to values of at most 15
significant digits, the range on which the exact-rational rendering
provably coincides with the binary64 one. -/
theorem c9_nonserializable_iff (v : String) (col : ℕ) (cue : Cue)
    (h : cue.nonSerializable = false)
    (hsig : ∀ nv isP, lineSettingNumVal v = some (nv, isP) →
      sigDigits (jsParseFloat nv).toQ ≤ 15) :
    ((lineSetting v col cue).1.nonSerializable = true ↔
      ∃ nv isP, lineSettingNumVal v = some (nv, isP) ∧
        decToString (jsParseFloat nv).toQ ≠ nv) :=
  lineSettingCore_nonserializable_iff _ _ col cue h

/-- Witness for C9: `line:01` is accepted and `"01"` is not the rendering
of `1`, so the flag is set. -/
theorem c9_witness : (lineSetting "01" 31 {}).1.nonSerializable = true :=
  (c9_nonserializable_iff "01" 31 {} rfl (by
      intro nv isP hnv
      rw [show lineSettingNumVal "01" = some ("01", false) from by decide] at hnv
      injection hnv with h1
      rw [Prod.mk.injEq] at h1
      obtain ⟨h2, -⟩ := h1
      subst h2
      decide)).mpr
    ⟨"01", false, by decide, by decide⟩

theorem isDigitC_toNat {c : Char} (h : isDigitC c = true) :
    48 ≤ c.toNat ∧ c.toNat ≤ 57 := by
  unfold isDigitC at h
  rw [Bool.and_eq_true, decide_eq_true_iff, decide_eq_true_iff] at h
  exact ⟨h.1, h.2⟩

theorem digitVal_le_nine {c : Char} (h : isDigitC c = true) : digitVal c ≤ 9 := by
  have := isDigitC_toNat h
  unfold digitVal
  omega

theorem digitsToNat_append_singleton (ds : List Char) (d : Char) :
    digitsToNat (ds ++ [d]) = 10 * digitsToNat ds + digitVal d := by
  unfold digitsToNat
  rw [List.foldl_append]
  rfl

theorem digitsToNat_lt_pow (ds : List Char) (h : ∀ c ∈ ds, isDigitC c = true) :
    digitsToNat ds < 10 ^ ds.length := by
  induction ds using List.reverseRecOn with
  | nil => simp [digitsToNat]
  | append_singleton ds d ih =>
    rw [digitsToNat_append_singleton]
    have hd : digitVal d ≤ 9 := digitVal_le_nine (h d (by simp))
    have hds : digitsToNat ds < 10 ^ ds.length := ih (fun c hc => h c (by simp [hc]))
    have : ds.length + 1 = (ds ++ [d]).length := by simp
    rw [← this, pow_succ]
    omega

/-- C2 (amended): when the leading digit run has at most two digits and
value at most 59, **and** the character after the two-digit second group is
not a colon, the parser takes the minutes branch: on success the leading run
must have had exactly two digits and the hours are forced to 0 (value below
3600). -/
theorem c2_minutes_branch (line : List Char) (pos : ℕ) (v : ℚ) (p' : ℕ) (errs : List PErr)
    (hlen : ((line.drop pos).takeWhile isDigitC).length ≤ 2)
    (hval : digitsToNat ((line.drop pos).takeWhile isDigitC) ≤ 59)
    (hcolon : line.get? (pos + ((line.drop pos).takeWhile isDigitC).length + 3) ≠ some ':')
    (hok : timestampP line pos = (some v, p', errs)) :
    ((line.drop pos).takeWhile isDigitC).length = 2 ∧ v < 3600 := by
  unfold timestampP at hok
  rcases hc : line.get? pos with _ | c <;> rw [hc] at hok
  · simp at hok
  by_cases hd : isDigitC c = true
  case neg => simp [hd] at hok
  dsimp only [tpCollect] at hok
  simp only [hd, Bool.not_true, Bool.false_eq_true, if_false] at hok
  set run := (line.drop pos).takeWhile isDigitC with hrun
  have hh1 : decide (run.length > 2) = false := by
    simp [Nat.not_lt.mpr hlen]
  have hh2 : decide (digitsToNat run > 59) = false := by
    simp [Nat.not_lt.mpr hval]
  rw [hh1, hh2] at hok
  simp only [Bool.or_self, Bool.false_or] at hok
  set run2 := (line.drop (pos + run.length + 1)).takeWhile isDigitC with hrun2
  by_cases hcol1 : line.get? (pos + run.length) = some ':'
  case neg => rw [if_pos hcol1] at hok; simp at hok
  rw [if_neg (not_not_intro hcol1)] at hok
  by_cases hlen2 : run2.length = 2
  case neg => rw [if_pos hlen2] at hok; simp at hok
  rw [if_neg (not_not_intro hlen2)] at hok
  have harith : pos + run.length + 1 + run2.length = pos + run.length + 3 := by omega
  rw [harith] at hok
  unfold timestampTail at hok
  simp only [Bool.false_or, decide_eq_true_eq] at hok
  rw [if_neg hcolon] at hok
  by_cases hL : run.length = 2
  case neg => rw [if_pos hL] at hok; simp at hok
  refine ⟨hL, ?_⟩
  rw [if_neg (not_not_intro hL)] at hok
  unfold timestampFinish at hok
  by_cases hdot : line.get? (pos + run.length + 3) = some '.'
  case neg => rw [if_pos hdot] at hok; simp at hok
  rw [if_neg (not_not_intro hdot)] at hok
  dsimp only [tpCollect] at hok
  set run4 := (line.drop (pos + run.length + 3 + 1)).takeWhile isDigitC with hrun4
  by_cases hlen4 : run4.length = 3
  case neg => rw [if_pos hlen4] at hok; simp at hok
  rw [if_neg (not_not_intro hlen4)] at hok
  rw [if_neg (Nat.not_lt.mpr hval)] at hok
  by_cases h59 : digitsToNat run2 > 59
  case pos => rw [if_pos h59] at hok; simp at hok
  rw [if_neg h59] at hok
  simp only [Prod.mk.injEq, Option.some.injEq] at hok
  obtain ⟨hv, -, -⟩ := hok
  subst hv
  push_neg at h59
  have hd4 : ∀ c ∈ run4, isDigitC c = true := fun c hc => List.mem_takeWhile_imp hc
  have h4 : digitsToNat run4 < 1000 := by
    have := digitsToNat_lt_pow run4 hd4
    rw [hlen4] at this
    norm_num at this
    exact this
  have c1 : (digitsToNat run : ℚ) ≤ 59 := by exact_mod_cast hval
  have c2 : (digitsToNat run2 : ℚ) ≤ 59 := by exact_mod_cast h59
  have c4 : (digitsToNat run4 : ℚ) ≤ 999 := by
    have : digitsToNat run4 ≤ 999 := by omega
    exact_mod_cast this
  have c0 : digitsToNat ['0'] = 0 := by decide
  rw [c0]
  push_cast
  linarith

/-- Witness for C2 (amended) at `"12:34.567"`: two-digit leading run, no
second colon, parsed in the minutes form. -/
theorem c2_minutes_branch_witness :
    (("12:34.567".data.drop 0).takeWhile isDigitC).length = 2 ∧ (754567 / 1000 : ℚ) < 3600 :=
  c2_minutes_branch "12:34.567".data 0 (754567 / 1000) 9 []
    (by decide) (by decide) (by decide) (by decide)

theorem entityMatch_amp_hash (l : List Char) : entityMatch ('&' :: '#' :: l) = none := rfl

theorem isEscBufC_ne {c : Char} (h : isEscBufC c = true) :
    c ≠ '&' ∧ c ≠ '<' ∧ c ≠ ';' := by
  refine ⟨?_, ?_, ?_⟩ <;> rintro rfl <;> exact absurd h (by decide)

theorem matchNumRef_dec (ds : List Char) (hne : ds ≠ [])
    (hdig : ∀ c ∈ ds, isDigitC c = true) :
    matchNumRef ('&' :: '#' :: ds) = some (false, ds) := by
  cases ds with
  | nil => contradiction
  | cons d ds' =>
    have hd : isDigitC d = true := hdig d (by simp)
    have hx : d ≠ 'x' := by rintro rfl; exact absurd hd (by decide)
    have hall : (d :: ds').all isDigitC = true := List.all_eq_true.mpr hdig
    simp only [matchNumRef]
    split
    · next heq => rw [List.cons.injEq, List.cons.injEq, List.cons.injEq] at heq
                  exact absurd heq.2.2.1 hx
    · next heq => rw [List.cons.injEq, List.cons.injEq] at heq
                  obtain ⟨-, -, h3⟩ := heq
                  subst h3
                  simp [hall]
    · next hcon =>
        exact absurd rfl (hcon (d :: ds'))

theorem matchNumRef_hex (ds : List Char) (hne : ds ≠ [])
    (hdig : ∀ c ∈ ds, isDigitC c = true) :
    matchNumRef ('&' :: '#' :: 'x' :: ds) = some (true, ds) := by
  have hall : ds.all isDigitC = true := List.all_eq_true.mpr hdig
  simp [matchNumRef, hall, List.isEmpty_eq_true, hne]

theorem drop_facts {line : List Char} {pos : ℕ} {c : Char} {t : List Char}
    (h : line.drop pos = c :: t) :
    line.get? pos = some c ∧ pos < line.length ∧ line.drop (pos + 1) = t := by
  have hlt : pos < line.length := by
    by_contra hle
    rw [List.drop_eq_nil_of_le (by omega)] at h
    exact List.noConfusion h
  have hget : line.get? pos = some c := by
    have h0 := List.get?_drop line pos 0
    rw [Nat.add_zero] at h0
    rw [← h0, h]
    rfl
  have hdrop : line.drop (pos + 1) = t := by
    have h1 := List.drop_drop 1 pos line
    rw [← h1, h]
    rfl
  exact ⟨hget, hlt, hdrop⟩

theorem escLoop_accum (mode : Mode) (line : List Char) (mid : List Char) :
    ∀ (pos fuel : ℕ) (result buffer : String) (classes : List String)
      (errs : List PErr) (rest : List Char),
      (∀ c ∈ mid, isEscBufC c = true) →
      line.drop pos = mid ++ rest →
      nextTokenLoop mode line (mid.length + fuel) .esc result buffer classes pos errs =
        nextTokenLoop mode line fuel .esc result (buffer ++ String.mk mid) classes
          (pos + mid.length) errs := by
  induction mid with
  | nil =>
    intro pos fuel result buffer classes errs rest hmid hdrop
    rw [List.length_nil, Nat.zero_add, Nat.add_zero]
    cases buffer with
    | mk bl =>
      show _ = nextTokenLoop mode line fuel .esc result (String.mk (bl ++ [])) classes pos errs
      rw [List.append_nil]
  | cons c cs ih =>
    intro pos fuel result buffer classes errs rest hmid hdrop
    have hc : isEscBufC c = true := hmid c (by simp)
    obtain ⟨hcamp, hclt, hcsemi⟩ := isEscBufC_ne hc
    rw [List.cons_append] at hdrop
    obtain ⟨hget, hlt, hdrop1⟩ := drop_facts hdrop
    have hfs : (c :: cs).length + fuel = (cs.length + fuel) + 1 := by
      simp [List.length_cons]; omega
    rw [hfs]
    rw [nextTokenLoop]
    rw [if_pos (by omega : pos ≤ line.length)]
    rw [hget]
    dsimp only
    split
    · next heq => injection heq with h; exact absurd h hclt
    · next heq => exact Option.noConfusion heq
    · next heq => injection heq with h; exact absurd h hcamp
    · next c2 heq =>
        injection heq with h
        subst h
        rw [if_pos hc]
        have hmid2 : ∀ x ∈ cs, isEscBufC x = true := fun x hx => hmid x (by simp [hx])
        rw [ih (pos + 1) fuel result (buffer.push c) classes errs rest hmid2 hdrop1]
        have hb : buffer.push c ++ String.mk cs = buffer ++ String.mk (c :: cs) := by
          cases buffer with
          | mk bl =>
            show String.mk (bl ++ [c] ++ cs) = String.mk (bl ++ (c :: cs))
            rw [List.append_assoc]
            rfl
        have hp : pos + 1 + cs.length = pos + (c :: cs).length := by
          simp [List.length_cons]
          omega
        rw [hb, hp]

theorem nextToken_numref_run (mode : Mode) (mid ds : List Char) (isHex : Bool) (cp : ℕ)
    (hmid : ∀ c ∈ mid, isEscBufC c = true)
    (hmatch : matchNumRef ('&' :: '#' :: mid) = some (isHex, ds))
    (hcp : (if isHex = true then decDigitsToNatBase16 ds else digitsToNat ds) = cp)
    (hbound : cp ≤ 0x10FFFF) :
    nextToken mode ('&' :: '#' :: (mid ++ [';'])) 0 =
      .ok (.text (String.mk [Char.ofNat cp]), 2 + mid.length + 1, []) := by
  set line : List Char := '&' :: '#' :: (mid ++ [';']) with hline
  have hlen : line.length = mid.length + 3 := by simp [hline]
  have hdropC : line.drop (2 + mid.length) = [';'] := by
    have h1 := List.drop_drop mid.length 2 line
    rw [← h1]
    rw [show line.drop 2 = mid ++ [';'] from rfl]
    exact List.drop_left mid [';']
  obtain ⟨hgetC, -, -⟩ := drop_facts hdropC
  have hgetD : line.get? (2 + mid.length + 1) = none := by
    rw [List.get?_eq_none]
    omega
  have stepA : nextTokenLoop mode line (mid.length + 3 + 2) .data "" "" [] 0 [] =
      nextTokenLoop mode line (mid.length + 3 + 1) .esc "" "&" [] 1 [] := rfl
  have stepB : nextTokenLoop mode line (mid.length + 3 + 1) .esc "" "&" [] 1 [] =
      nextTokenLoop mode line (mid.length + (2 + 1)) .esc "" "&#" [] 2 [] := rfl
  have stepAcc := escLoop_accum mode line mid 2 (2 + 1) "" "&#" [] [] [';'] hmid rfl
  have stepC : nextTokenLoop mode line (2 + 1) .esc "" ("&#" ++ String.mk mid) []
        (2 + mid.length) [] =
      nextTokenLoop mode line (1 + 1) .data (String.mk [Char.ofNat cp])
        ("&#" ++ String.mk mid) [] (2 + mid.length + 1) [] := by
    rw [nextTokenLoop]
    rw [if_pos (by omega : 2 + mid.length ≤ line.length)]
    rw [hgetC]
    dsimp only
    split
    · next heq => injection heq with h; exact absurd h (by decide)
    · next heq => exact Option.noConfusion heq
    · next heq => injection heq with h; exact absurd h (by decide)
    · next c2 heq =>
        injection heq with h
        subst h
        rw [if_neg (by decide : ¬ isEscBufC ';' = true)]
        rw [if_pos rfl]
        rw [show ("&#" ++ String.mk mid).data = '&' :: '#' :: mid from rfl]
        rw [hmatch]
        dsimp only
        rw [hcp]
        simp only [fromCodePoint]
        rw [if_neg (by omega : ¬ cp > 0x10FFFF)]
        rfl
  have stepD : nextTokenLoop mode line (1 + 1) .data (String.mk [Char.ofNat cp])
        ("&#" ++ String.mk mid) [] (2 + mid.length + 1) [] =
      .ok (.text (String.mk [Char.ofNat cp]), 2 + mid.length + 1, []) := by
    rw [nextTokenLoop]
    rw [if_pos (by omega : 2 + mid.length + 1 ≤ line.length)]
    rw [hgetD]
  show nextTokenLoop mode line (line.length + 2) .data "" "" [] 0 [] = _
  rw [hlen]
  rw [stepA, stepB, stepAcc, stepC, stepD]

theorem cueTextParse_numref (mode : Mode) (cueStart cueEnd : ℚ)
    (mid ds : List Char) (isHex : Bool) (cp : ℕ)
    (hmid : ∀ c ∈ mid, isEscBufC c = true)
    (hmatch : matchNumRef ('&' :: '#' :: mid) = some (isHex, ds))
    (hcp : (if isHex = true then decDigitsToNatBase16 ds else digitsToNat ds) = cp)
    (hbound : cp ≤ 0x10FFFF) :
    cueTextParse (String.mk ('&' :: '#' :: (mid ++ [';']))) mode cueStart cueEnd =
      .ok ([Node.text (String.mk [Char.ofNat cp])], []) := by
  have hrun := nextToken_numref_run mode mid ds isHex cp hmid hmatch hcp hbound
  have hlen : ('&' :: '#' :: (mid ++ [';'])).length = mid.length + 3 := by simp
  have hgetD : ('&' :: '#' :: (mid ++ [';'])).get? (2 + mid.length + 1) = none := by
    rw [List.get?_eq_none]
    omega
  show (do
    let line := '&' :: '#' :: (mid ++ [';'])
    let (pos, st, errs) ← cueTextLoop mode line cueStart cueEnd (line.length + 1) 0 {} [] []
    let (st, errs) := closeAll mode pos st errs
    (.ok (st.root, errs) : Except String (List Node × List PErr))) = _
  dsimp only
  rw [hlen]
  have hstop : cueTextLoop mode ('&' :: '#' :: (mid ++ [';'])) cueStart cueEnd
        (mid.length + (2 + 1)) (2 + mid.length + 1)
        ⟨[Node.text (String.mk [Char.ofNat cp])], []⟩ [] [] =
      .ok (2 + mid.length + 1, ⟨[Node.text (String.mk [Char.ofNat cp])], []⟩, []) := by
    rw [show mid.length + (2 + 1) = (mid.length + 2) + 1 from rfl]
    rw [cueTextLoop]
    rw [hgetD]
  rw [show mid.length + 3 + 1 = (mid.length + (2 + 1)) + 1 from rfl]
  rw [cueTextLoop]
  rw [show ('&' :: '#' :: (mid ++ [';'])).get? 0 = some '&' from rfl]
  dsimp only
  rw [hrun]
  show (do
    let (st, timestamps, errs) := dispatchToken mode cueStart cueEnd
      (.text (String.mk [Char.ofNat cp])) (2 + mid.length + 1) {} [] []
    let (pos, st, errs) ← cueTextLoop mode ('&' :: '#' :: (mid ++ [';'])) cueStart cueEnd
      (mid.length + (2 + 1)) (2 + mid.length + 1) st timestamps errs
    let (st, errs) := closeAll mode pos st errs
    (.ok (st.root, errs) : Except String (List Node × List PErr)))
    = _
  dsimp only [dispatchToken, pushChild]
  simp only [List.nil_append]
  rw [hstop]
  rfl

/-- C6: a numeric character reference in cue payload text terminated by `;`
whose digits are all decimal digits resolves by code-point conversion with no
diagnostic, in both the decimal form `&#DDD;` and the hexadecimal form
`&#xDD;` (whose digits are read in base 16), provided the resulting code
point is at most 0x10FFFF (beyond that `String.fromCodePoint` throws, see
C1).  This holds in every parsing mode and for every cue time pair. -/
theorem c6_numeric_refs_decode (mode : Mode) (cueStart cueEnd : ℚ)
    (ds : List Char) (hne : ds ≠ []) (hdig : ∀ c ∈ ds, isDigitC c = true) :
    (digitsToNat ds ≤ 0x10FFFF →
      cueTextParse ("&#" ++ String.mk ds ++ ";") mode cueStart cueEnd =
        .ok ([Node.text (String.mk [Char.ofNat (digitsToNat ds)])], [])) ∧
    (decDigitsToNatBase16 ds ≤ 0x10FFFF →
      cueTextParse ("&#x" ++ String.mk ds ++ ";") mode cueStart cueEnd =
        .ok ([Node.text (String.mk [Char.ofNat (decDigitsToNatBase16 ds)])], [])) := by
  have hesc : ∀ c ∈ ds, isEscBufC c = true := by
    intro c hc
    simp [isEscBufC, hdig c hc]
  constructor
  · intro hbound
    exact cueTextParse_numref mode cueStart cueEnd ds ds false (digitsToNat ds) hesc
      (matchNumRef_dec ds hne hdig) rfl hbound
  · intro hbound
    have hescx : ∀ c ∈ 'x' :: ds, isEscBufC c = true := by
      intro c hc
      rcases List.mem_cons.mp hc with h | h
      · subst h; decide
      · exact hesc c h
    exact cueTextParse_numref mode cueStart cueEnd ('x' :: ds) ds true
      (decDigitsToNatBase16 ds) hescx (matchNumRef_hex ds hne hdig) rfl hbound

theorem c6_numeric_refs_decode_witness :
    cueTextParse ("&#" ++ String.mk ['6', '5'] ++ ";") .chapters 0 1 =
        .ok ([Node.text "A"], []) ∧
    cueTextParse ("&#x" ++ String.mk ['4', '1'] ++ ";") .chapters 0 1 =
        .ok ([Node.text "A"], []) := by
  constructor
  · exact (c6_numeric_refs_decode .chapters 0 1 ['6', '5'] (by decide) (by decide)).1
      (by decide)
  · exact (c6_numeric_refs_decode .chapters 0 1 ['4', '1'] (by decide) (by decide)).2
      (by decide)

end WebVtt